import Mathlib

/-
Formal model of the route construction engine of the
`centr_invest_travel_support` repository: `backend/route_logic.py` together
with the calendar exporter `backend/ics_utils.py`.

Modelling conventions.

* Python floats are modelled as exact rationals (`ℚ`); Python ints as `ℤ`/`ℕ`.
* Naive `datetime` values are modelled as minutes since midnight of the
  planning date (`ℤ`).  `datetime.replace(hour=h, minute=m)` keeps the date
  part, which is `(dt.fdiv 1440) * 1440` in this encoding.
* `haversine_km` is a transcendental function of the coordinates, so it is
  not directly representable in exact arithmetic.  The whole engine is
  therefore parametrised by an abstract distance function `DistFn` standing for
  `haversine_km`; theorems that depend on geometric facts take the properties
  `haversine_km` enjoys (non-negativity, the triangle inequality) as explicit
  hypotheses, and concrete witnesses instantiate `DistFn` with a computable
  metric of the same shape.
* A `Place` is the `TypedDict` of `seed_loader.Place` restricted to the
  fields the route engine reads (`name`, `lat`, `lon`, `tags`, `rating`,
  `reviews_count`, opening hours).  The `"HH:MM"` opening-hour strings of
  `_parse_hours` are modelled as already-parsed `(hour, minute)` pairs; an
  empty slot list plays the role of `parsed or None`.
* Python object identity: in `pick_candidates` the comprehension
  `{id(v): v for v in coverage.values()}` deduplicates by identity.  Because
  `max(..., key=...)` returns the first maximal element and content-equal
  places receive equal scores, the coverage pass always selects the earliest
  pool occurrence of a given content, so identity-deduplication coincides
  with content-deduplication keeping first occurrences, which is how it is
  modelled here (`dedupFirst`).
-/

/-- A point of interest, as read by `route_logic.py` (see `seed_loader.Place`). -/
structure Place where
  name : String
  lat : ℚ
  lon : ℚ
  tags : List String
  rating : ℚ := 0
  reviews_count : ℕ := 0
  hours_today : Option (List ((ℕ × ℕ) × (ℕ × ℕ))) := none
  deriving DecidableEq

instance : Inhabited Place := ⟨⟨"", 0, 0, [], 0, 0, none⟩⟩

/-- Abstract form of `haversine_km lat1 lon1 lat2 lon2`. -/
abbrev DistFn := ℚ → ℚ → ℚ → ℚ → ℚ

/- Constants of `route_logic.py`. -/

def MIN_TRAVEL_MINUTES : ℤ := 8
def MAX_STOPS : ℕ := 7
def CANDIDATE_POOL_MULTIPLIER : ℕ := 3
def WALK_KM_THRESHOLD : ℚ := 12/10
def WALK_MIN_PER_KM : ℚ := 12
def DRIVE_MIN_PER_KM : ℚ := 3
def FOOD_TAGS : List String := ["food", "coffee", "restaurant", "cafe", "бар", "еда", "кофе"]

/-- `DEFAULT_START_TIME = time(10, 0)` as minutes since midnight. -/
def DEFAULT_START_MIN : ℤ := 600

/-- `LUNCH_INSERT_AFTER_HOURS = 3.5` hours, as minutes (the code compares
`hours_since_start >= 3.5` where `hours_since_start` is an integral number of
minutes divided by 60, so the comparison is exactly `210 ≤ minutes`). -/
def LUNCH_AFTER_MIN : ℤ := 210

/-- Python `round` on an exact value: nearest integer, ties to even. -/
def pyRound (q : ℚ) : ℤ :=
  let f := ⌊q⌋
  let frac := q - (f : ℚ)
  if frac < 1/2 then f
  else if 1/2 < frac then f + 1
  else if f % 2 = 0 then f else f + 1

/-- Python `int(q)`: truncation toward zero. -/
def pyInt (q : ℚ) : ℤ := if q < 0 then ⌈q⌉ else ⌊q⌋

/-- Python `round(q, 2)`. -/
def pyRound2 (q : ℚ) : ℚ := (pyRound (q * 100) : ℚ) / 100

/-- Python `round(q, 6)`. -/
def pyRound6 (q : ℚ) : ℚ := (pyRound (q * 1000000) : ℚ) / 1000000

/-- `_travel_minutes`. -/
def travelMinutes (dkm : ℚ) : ℤ :=
  let est := if dkm ≤ WALK_KM_THRESHOLD then dkm * WALK_MIN_PER_KM else dkm * DRIVE_MIN_PER_KM
  max MIN_TRAVEL_MINUTES (pyRound est)

/-- `set(tags) & other` is non-empty. -/
def tagsIntersect (tags other : List String) : Bool :=
  tags.any (fun t => other.contains t)

/-- `set(place.get("tags", [])) & FOOD_TAGS` is non-empty. -/
def hasFoodTag (p : Place) : Bool := tagsIntersect p.tags FOOD_TAGS

/-- `_duration_for_place`. -/
def durationForPlace (p : Place) : ℤ :=
  if hasFoodTag p then 45
  else if tagsIntersect p.tags ["museum", "history", "gallery"] then 75
  else if tagsIntersect p.tags ["park", "walk", "embankment", "nature"] then 60
  else 50

/- Deduplication keeping first occurrences (`dict.fromkeys`, and the
identity-based dedup of the coverage pass, see the header comment). -/

def dedupFirstAux {α} [DecidableEq α] (seen : List α) : List α → List α
  | [] => []
  | a :: l => if a ∈ seen then dedupFirstAux seen l else a :: dedupFirstAux (a :: seen) l

def dedupFirst {α} [DecidableEq α] (l : List α) : List α := dedupFirstAux [] l

/-- `_interest_score`. -/
def interestScore (p : Place) (requested : List String) : ℚ :=
  if requested = [] then 1
  else
    let r := dedupFirst requested
    if r = [] then 0
    else (((dedupFirst p.tags).filter (fun t => t ∈ r)).length : ℚ) / (r.length : ℚ)

/-- `_quality_score`. -/
def qualityScore (p : Place) : ℚ :=
  let base := if p.rating ≠ 0 then p.rating / 5 else 0
  let boost := min 1 ((p.reviews_count : ℚ) / 200) * (2/10)
  max 0 (min 1 (base + boost))

/-- `_score_place` (weights `W_INTEREST, W_PROXIMITY, W_QUALITY = 0.55, 0.30, 0.15`);
`_proximity_score` is inlined as `1 / (1 + d)`. -/
def scorePlace (d : DistFn) (p : Place) (requested : List String)
    (origin : Option (ℚ × ℚ)) : ℚ :=
  let dk := match origin with
    | some o => d o.1 o.2 p.lat p.lon
    | none => 0
  let sProx : ℚ := match origin with
    | some _ => 1 / (1 + dk)
    | none => 1/2
  (55/100) * interestScore p requested + (30/100) * sProx + (15/100) * qualityScore p

/-- `_cluster_key` (`0.00135` degrees per ~150 m cell). -/
def clusterKey (lat lon : ℚ) : ℤ × ℤ :=
  (pyInt (lat / (135/100000)), pyInt (lon / (135/100000)))

/-- Python `max(l, key=f)`: first element attaining the maximum (`none` on `[]`). -/
def pyMaxBy {α} (f : α → ℚ) : List α → Option α
  | [] => none
  | a :: l => some (l.foldl (fun b x => if f b < f x then x else b) a)

/-- Python `min(l, key=f)`: first element attaining the minimum (`none` on `[]`). -/
def pyMinBy {α} (f : α → ℚ) : List α → Option α
  | [] => none
  | a :: l => some (l.foldl (fun b x => if f x < f b then x else b) a)

/- Python `sorted(l, key=f, reverse=True)`: the unique stable descending
order, realised here as a stable insertion sort. -/

def insertDesc {α} (f : α → ℚ) (a : α) : List α → List α
  | [] => [a]
  | b :: l => if f b ≤ f a then a :: b :: l else b :: insertDesc f a l

def sortDescBy {α} (f : α → ℚ) : List α → List α
  | [] => []
  | a :: l => insertDesc f a (sortDescBy f l)

/- The spatial anti-duplicate pass: a Python dict keyed by cluster cell, in
insertion order; updating the value of a present key keeps its position. -/

def updateAssoc {α β} [DecidableEq α] (k : α) (v : β) (l : List (α × β)) : List (α × β) :=
  l.map (fun e => if e.1 = k then (k, v) else e)

def clusterStep (sc : Place → ℚ) (acc : List ((ℤ × ℤ) × Place)) (p : Place) :
    List ((ℤ × ℤ) × Place) :=
  let k := clusterKey p.lat p.lon
  match acc.find? (fun e => e.1 = k) with
  | none => acc ++ [(k, p)]
  | some e => if sc e.2 < sc p then updateAssoc k p acc else acc

/-- `list(picked.values())` after the anti-duplicate fold. -/
def uniquePoolOf (sc : Place → ℚ) (pool : List Place) : List Place :=
  (pool.foldl (clusterStep sc) []).map Prod.snd

/-- The fill loop of `pick_candidates`: append from `rem` while the
accumulated list is shorter than `cap`. -/
def fillUp (cap : ℕ) (acc : List Place) : List Place → List Place
  | [] => acc
  | p :: rs => if cap ≤ acc.length then acc else fillUp cap (acc ++ [p]) rs

/-- `max(MAX_STOPS * CANDIDATE_POOL_MULTIPLIER, MAX_STOPS)`. -/
def poolSize : ℕ := max (MAX_STOPS * CANDIDATE_POOL_MULTIPLIER) MAX_STOPS

/-- The coverage pass of `pick_candidates`: for each distinct requested tag in
first-seen order, the highest-scoring pool place bearing it, deduplicated
keeping first occurrences. -/
def coverageList (sc : Place → ℚ) (requested : List String) (pool : List Place) :
    List Place :=
  dedupFirst ((dedupFirst requested).filterMap
    (fun tag => pyMaxBy sc (pool.filter (fun p => p.tags.contains tag))))

/-- The score key used throughout `pick_candidates`. -/
def pickScore (d : DistFn) (requested : List String) (origin : Option (ℚ × ℚ)) :
    Place → ℚ :=
  fun p => scorePlace d p requested origin

/-- The shortlist `pool = scored[:pool_size]` of `pick_candidates`. -/
def pickPool (d : DistFn) (places : List Place) (requested : List String)
    (origin : Option (ℚ × ℚ)) : List Place :=
  (sortDescBy (pickScore d requested origin) places).take poolSize

/-- `result` right after the coverage pass of `pick_candidates`. -/
def pickCov (d : DistFn) (places : List Place) (requested : List String)
    (origin : Option (ℚ × ℚ)) : List Place :=
  coverageList (pickScore d requested origin) requested (pickPool d places requested origin)

/-- The score-sorted `remaining` list of `pick_candidates`. -/
def pickRemaining (d : DistFn) (places : List Place) (requested : List String)
    (origin : Option (ℚ × ℚ)) : List Place :=
  sortDescBy (pickScore d requested origin)
    ((uniquePoolOf (pickScore d requested origin) (pickPool d places requested origin)).filter
      (fun p => !((pickCov d places requested origin).contains p)))

/-- `pick_candidates`. -/
def pickCandidates (d : DistFn) (places : List Place) (requested : List String)
    (origin : Option (ℚ × ℚ)) : List Place :=
  if places = [] then []
  else
    (fillUp MAX_STOPS (pickCov d places requested origin)
      (pickRemaining d places requested origin)).take MAX_STOPS

/- Route length and the sequencer. -/

/-- `_route_len`, with the running start coordinate made explicit. -/
def routeLenFrom (d : DistFn) (lat lon : ℚ) : List Place → ℚ
  | [] => 0
  | p :: r => d lat lon p.lat p.lon + routeLenFrom d p.lat p.lon r

/-- `_route_len(seq, s_lat, s_lon)`. -/
def routeLen (d : DistFn) (sLat sLon : ℚ) (seq : List Place) : ℚ :=
  routeLenFrom d sLat sLon seq

/-- The body of `_nearest_neighbor`, with fuel equal to the number of
remaining places (each iteration removes the chosen place, so this fuel is
exact). -/
def nnGo (d : DistFn) : ℕ → ℚ → ℚ → List Place → List Place
  | 0, _, _, _ => []
  | fuel + 1, cLat, cLon, remaining =>
    match pyMinBy (fun p => d cLat cLon p.lat p.lon) remaining with
    | none => []
    | some nxt => nxt :: nnGo d fuel nxt.lat nxt.lon (remaining.erase nxt)

/-- `_nearest_neighbor`. -/
def nearestNeighbor (d : DistFn) (sLat sLon : ℚ) (places : List Place) : List Place :=
  nnGo d places.length sLat sLon places

/-- The `1e-9` churn epsilon of `_two_opt` / `_or_opt`. -/
def EPS : ℚ := 1/1000000000

/-- The index pairs `(i, j)` with `0 ≤ i ≤ n-3`, `i+2 ≤ j ≤ n-1` scanned by
one pass of `_two_opt`. -/
def twoOptPairs (n : ℕ) : List (ℕ × ℕ) :=
  (List.range (n - 2)).flatMap (fun i => (List.range' (i + 2) (n - (i + 2))).map (fun j => (i, j)))

/-- `best[:i+1] + best[i+1:j+1][::-1] + best[j+1:]`. -/
def reverseSegment (route : List Place) (i j : ℕ) : List Place :=
  route.take (i + 1) ++ ((route.drop (i + 1)).take (j - i)).reverse ++ route.drop (j + 1)

/-- One candidate move of `_two_opt`; the state is `(best, best_len, improved)`. -/
def twoOptStep (d : DistFn) (sLat sLon : ℚ) (st : List Place × ℚ × Bool) (ij : ℕ × ℕ) :
    List Place × ℚ × Bool :=
  let newSeq := reverseSegment st.1 ij.1 ij.2
  let newLen := routeLen d sLat sLon newSeq
  if newLen + EPS < st.2.1 then (newSeq, newLen, true) else st

/-- One full scan of the `_two_opt` double loop.  (Moves preserve the length
of the route, so recomputing `n = route.length` per scan agrees with the
source, which reads `n = len(best)` once.) -/
def twoOptScan (d : DistFn) (sLat sLon : ℚ) (route : List Place) : List Place × ℚ × Bool :=
  (twoOptPairs route.length).foldl (twoOptStep d sLat sLon)
    (route, routeLen d sLat sLon route, false)

/-- The `while improved` loop of `_two_opt`, driven by fuel; each recursive
call corresponds to one improving scan. -/
def twoOptLoop (d : DistFn) (sLat sLon : ℚ) : ℕ → List Place → List Place
  | 0, route => route
  | fuel + 1, route =>
    let st := twoOptScan d sLat sLon route
    if st.2.2 then twoOptLoop d sLat sLon fuel st.1 else route

/-- `_two_opt`.  The fuel `n! + 1` is sufficient: scans produce permutations
of the route, an improving scan strictly decreases the (finitely-valued)
route length, so at most `n!` improving scans can occur (made precise by the
termination theorem for claim C9). -/
def twoOpt (d : DistFn) (sLat sLon : ℚ) (route : List Place) : List Place :=
  twoOptLoop d sLat sLon (route.length.factorial + 1) route

/-- One relocation attempt (`j`) of the inner loop of `_or_opt`; the state is
`(best, best_len)`. -/
def orOptStep (d : DistFn) (sLat sLon : ℚ) (node : Place) (rest : List Place)
    (st : List Place × ℚ) (j : ℕ) : List Place × ℚ :=
  let cand := rest.take j ++ node :: rest.drop j
  let l := routeLen d sLat sLon cand
  if l + EPS < st.2 then (cand, l) else st

/-- One outer iteration (`i`) of `_or_opt`: try relocating `best[i]` to every
position, keeping the running `(best, best_len)` state across the inner loop.
(`best_len` always equals `_route_len(best)`, so it is recomputed here.) -/
def orOptPass (d : DistFn) (sLat sLon : ℚ) (best : List Place) (i : ℕ) : List Place :=
  let node := best.getD i default
  let rest := best.take i ++ best.drop (i + 1)
  ((List.range (rest.length + 1)).foldl (orOptStep d sLat sLon node rest)
    (best, routeLen d sLat sLon best)).1

/-- `_or_opt` (single pass over `i in range(n)`; relocations preserve the
length of the route). -/
def orOpt (d : DistFn) (sLat sLon : ℚ) (route : List Place) : List Place :=
  (List.range route.length).foldl (orOptPass d sLat sLon) route

/-- `order_by_nearest`. -/
def orderByNearest (d : DistFn) (sLat sLon : ℚ) (places : List Place) : List Place :=
  if places = [] then []
  else orOpt d sLat sLon (twoOpt d sLat sLon (nearestNeighbor d sLat sLon places))

/-- One insertion attempt (`j`) of `_maybe_insert_food`; the state is
`(best_route, best_len)` and the acceptance test is a strict `<` with no
epsilon. -/
def insertFoodStep (d : DistFn) (sLat sLon : ℚ) (best : Place) (ordered : List Place)
    (st : List Place × ℚ) (j : ℕ) : List Place × ℚ :=
  let cand := ordered.take j ++ best :: ordered.drop j
  let l := routeLen d sLat sLon cand
  if l < st.2 then (cand, l) else st

/-- `_maybe_insert_food`. -/
def maybeInsertFood (d : DistFn) (sLat sLon : ℚ) (ordered allPlaces : List Place) :
    List Place :=
  if ordered = [] then ordered
  else if ordered.any hasFoodTag then ordered
  else
    let anchor := ordered.getD (ordered.length / 2) default
    let candidates := allPlaces.filter (fun p => hasFoodTag p && !(ordered.contains p))
    match pyMinBy (fun p => d anchor.lat anchor.lon p.lat p.lon) candidates with
    | none => ordered
    | some best =>
      ((List.range (ordered.length + 1)).foldl (insertFoodStep d sLat sLon best ordered)
        (ordered, routeLen d sLat sLon ordered)).1

/- Opening hours and the schedule loop of `build_route`. -/

/-- `_parse_hours` on the pre-parsed slot representation (`parsed or None`). -/
def parseHours (p : Place) : Option (List ((ℕ × ℕ) × (ℕ × ℕ))) :=
  match p.hours_today with
  | none => none
  | some [] => none
  | some l => some l

/-- `dt.replace(hour=h, minute=m, second=0, microsecond=0)` in minutes since
the planning date's midnight: the date part of `dt` is kept. -/
def replaceTime (dt : ℤ) (h m : ℕ) : ℤ := (Int.fdiv dt 1440) * 1440 + (h : ℤ) * 60 + (m : ℤ)

def alignGo (cur : ℤ) : List ((ℕ × ℕ) × (ℕ × ℕ)) → ℤ
  | [] => cur
  | s :: rest =>
    let slotStart := replaceTime cur s.1.1 s.1.2
    let slotEnd := replaceTime cur s.2.1 s.2.2
    if cur ≤ slotEnd then max cur slotStart else alignGo cur rest

/-- `_align_to_opening`. -/
def alignToOpening (cur : ℤ) (slots : Option (List ((ℕ × ℕ) × (ℕ × ℕ)))) : ℤ :=
  match slots with
  | none => cur
  | some l => alignGo cur l

/-- A stop record emitted by `build_route` (`arrive`/`leave` are the
`isoformat` timestamps, modelled as minutes since the date's midnight). -/
structure Stop where
  name : String
  lat : ℚ
  lon : ℚ
  arrive : ℤ
  leave : ℤ
  tags : List String
  dist_km_from_prev : ℚ
  travel_min_from_prev : ℤ
  deriving DecidableEq

instance : Inhabited Stop := ⟨⟨"", 0, 0, 0, 0, [], 0, 0⟩⟩

/-- One transition of the scheduling loop of `build_route`: the stop record
that would be emitted for `place` (travel, opening-hour alignment, lunch
delay, departure) together with the updated `last_lunch_insert` latch. -/
def scheduleStep (d : DistFn) (place : Place) (idx : ℕ) (currentTime : ℤ)
    (curLat curLon : ℚ) (latch : Option ℕ) : Stop × Option ℕ :=
  let distanceKm := d curLat curLon place.lat place.lon
  let travel := travelMinutes distanceKm
  let arrive1 := currentTime + travel
  let arrive2 := alignToOpening arrive1 (parseHours place)
  let dur := durationForPlace place
  let crossed := LUNCH_AFTER_MIN ≤ arrive2 - DEFAULT_START_MIN
  let arrive3 :=
    if latch = none ∧ crossed ∧ hasFoodTag place = false then arrive2 + 10 else arrive2
  let latch2 := if latch = none ∧ crossed then some idx else latch
  ({ name := place.name, lat := place.lat, lon := place.lon,
     arrive := arrive3, leave := arrive3 + dur, tags := place.tags,
     dist_km_from_prev := pyRound2 distanceKm,
     travel_min_from_prev := travel }, latch2)

/-- The scheduling loop of `build_route` over the ordered places.  State:
current index, current time, current coordinates, and `last_lunch_insert`
(the lunch latch).  Returns the emitted stops and `total_minutes`. -/
def scheduleGo (d : DistFn) (hardStop : Option ℤ) :
    List Place → ℕ → ℤ → ℚ → ℚ → Option ℕ → List Stop × ℤ
  | [], _, _, _, _, _ => ([], 0)
  | place :: rest, idx, currentTime, curLat, curLon, latch =>
    let s := (scheduleStep d place idx currentTime curLat curLon latch).1
    let withinDay : Bool := match hardStop with
      | none => true
      | some h => decide (s.leave ≤ h)
    if withinDay then
      let res := scheduleGo d hardStop rest (idx + 1) s.leave place.lat place.lon
        (scheduleStep d place idx currentTime curLat curLon latch).2
      (s :: res.1, s.travel_min_from_prev + durationForPlace place + res.2)
    else ([], 0)

/-- `CITY_CENTERS.get(city, CITY_CENTERS["Ростов-на-Дону"])`. -/
def cityCenter (city : String) : ℚ × ℚ :=
  if city = "Таганрог" then (472096/10000, 389358/10000)
  else if city = "Азов" then (471121/10000, 394231/10000)
  else (47222078/1000000, 39720349/1000000)

/-- The dedup-by-`(round(lat,6), round(lon,6), name)` pass of `build_route`. -/
def dedupPlacesAux (seen : List (ℚ × ℚ × String)) : List Place → List Place
  | [] => []
  | p :: rest =>
    let key := (pyRound6 p.lat, pyRound6 p.lon, p.name)
    if key ∈ seen then dedupPlacesAux seen rest
    else p :: dedupPlacesAux (key :: seen) rest

def dedupPlaces (l : List Place) : List Place := dedupPlacesAux [] l

/-- `_format_duration` (`total_minutes` is always non-negative, where Python's
`divmod` agrees with truncating division). -/
def formatDuration (total : ℤ) : String :=
  let hours := total / 60
  let minutes := total % 60
  if hours ≠ 0 ∧ minutes ≠ 0 then toString hours ++ "ч " ++ toString minutes ++ "мин"
  else if hours ≠ 0 then toString hours ++ "ч"
  else toString minutes ++ "мин"

/-- Result of `build_route` (the ICS payload is produced by `make_ics`,
modelled separately below with an explicit generation-clock input; the
`total_time_human` field duplicates `total_time` in the source). -/
structure RouteResult where
  stops : List Stop
  total_minutes : ℤ
  total_time : String
  deriving DecidableEq

/-- The ordered stop sequence `build_route` feeds to its scheduling loop:
dedup, selection, nearest-neighbour + local search, optional meal insertion. -/
def routeOrdered (d : DistFn) (city : String) (places : List Place) (tags : List String)
    (startLocation : Option (ℚ × ℚ)) : List Place :=
  let s := startLocation.getD (cityCenter city)
  let dedup := dedupPlaces places
  let selected := pickCandidates d dedup tags (some s)
  let ordered0 := orderByNearest d s.1 s.2 selected
  if 4 ≤ ordered0.length then (maybeInsertFood d s.1 s.2 ordered0 dedup).take MAX_STOPS
  else ordered0

/-- `build_route` (dates are normalised to the planning date's midnight, so
`datetime.combine(date, DEFAULT_START_TIME)` is minute 600; `day_end = none`
models passing `day_end=None`). -/
def buildRoute (d : DistFn) (city : String) (places : List Place) (tags : List String)
    (startLocation : Option (ℚ × ℚ)) (dayEnd : Option ℤ) : RouteResult :=
  let s := startLocation.getD (cityCenter city)
  let ordered := routeOrdered d city places tags startLocation
  let res := scheduleGo d dayEnd ordered 0 DEFAULT_START_MIN s.1 s.2 none
  { stops := res.1, total_minutes := res.2, total_time := formatDuration res.2 }

/-- The schedule loop with the lunch rule exactly as claim C3 words it: the
10-minute delay is added to the arrival of the first stop whose elapsed time
since 10:00 reaches 3.5 hours AND which is not food/coffee-tagged; a
food-tagged stop crossing the threshold does not consume the one-shot latch.
This is the reference against which the source loop is compared. -/
def scheduleStepClaimLunch (d : DistFn) (place : Place) (idx : ℕ) (currentTime : ℤ)
    (curLat curLon : ℚ) (latch : Option ℕ) : Stop × Option ℕ :=
  let distanceKm := d curLat curLon place.lat place.lon
  let travel := travelMinutes distanceKm
  let arrive1 := currentTime + travel
  let arrive2 := alignToOpening arrive1 (parseHours place)
  let dur := durationForPlace place
  let crossed := LUNCH_AFTER_MIN ≤ arrive2 - DEFAULT_START_MIN
  let arrive3 :=
    if latch = none ∧ crossed ∧ hasFoodTag place = false then arrive2 + 10 else arrive2
  let latch2 :=
    if latch = none ∧ crossed ∧ hasFoodTag place = false then some idx else latch
  ({ name := place.name, lat := place.lat, lon := place.lon,
     arrive := arrive3, leave := arrive3 + dur, tags := place.tags,
     dist_km_from_prev := pyRound2 distanceKm,
     travel_min_from_prev := travel }, latch2)

/-- The schedule loop driven by the claimed lunch rule (`scheduleStepClaimLunch`). -/
def scheduleGoClaimLunch (d : DistFn) (hardStop : Option ℤ) :
    List Place → ℕ → ℤ → ℚ → ℚ → Option ℕ → List Stop × ℤ
  | [], _, _, _, _, _ => ([], 0)
  | place :: rest, idx, currentTime, curLat, curLon, latch =>
    let s := (scheduleStepClaimLunch d place idx currentTime curLat curLon latch).1
    let withinDay : Bool := match hardStop with
      | none => true
      | some h => decide (s.leave ≤ h)
    if withinDay then
      let res := scheduleGoClaimLunch d hardStop rest (idx + 1) s.leave place.lat place.lon
        (scheduleStepClaimLunch d place idx currentTime curLat curLon latch).2
      (s :: res.1, s.travel_min_from_prev + durationForPlace place + res.2)
    else ([], 0)

/-- `build_route` with the lunch rule as claim C3 words it. -/
def buildRouteClaimLunch (d : DistFn) (city : String) (places : List Place)
    (tags : List String) (startLocation : Option (ℚ × ℚ)) (dayEnd : Option ℤ) :
    List Stop :=
  let s := startLocation.getD (cityCenter city)
  let ordered := routeOrdered d city places tags startLocation
  (scheduleGoClaimLunch d dayEnd ordered 0 DEFAULT_START_MIN s.1 s.2 none).1

/-- The aligned, pre-delay arrival time of stop `i`, reconstructed from the
output of the schedule: previous departure (`t0` for the first stop) plus the
recorded travel minutes, snapped to the opening hours of the `i`-th ordered
place. -/
def baseArrive (stops : List Stop) (ordered : List Place) (t0 : ℤ) (i : ℕ) : ℤ :=
  let prevLeave := if i = 0 then t0 else (stops.getD (i - 1) default).leave
  alignToOpening (prevLeave + (stops.getD i default).travel_min_from_prev)
    (parseHours (ordered.getD i default))

/-- Time-ordering of a stop list from a starting instant: each arrival is at
or after the previous departure, and each departure at or after its arrival. -/
def Chrono (t : ℤ) : List Stop → Prop
  | [] => True
  | s :: rest => t ≤ s.arrive ∧ s.arrive ≤ s.leave ∧ Chrono s.leave rest

/- The calendar exporter `make_ics` (`ics_utils.py`).  The ISO-format parsing
(`_parse_iso`) and timezone localisation (`_ensure_tz`) of the stop
timestamps are deterministic pure functions; their composite output, the
local `%Y%m%dT%H%M%S` wall-clock string, is modelled as the stop's stored
timestamp.  The generation clock `datetime.now(timezone.utc)` is an explicit
input `now`. -/

/-- A stop dict as consumed by `make_ics`. -/
structure IcsStop where
  name : String
  arrive : String
  leave : String
  tags : List String
  description : Option String := none
  deriving DecidableEq

/-- The character expansion performed by `_escape`. -/
def escapeChar (c : Char) : String :=
  if c = '\\' then "\\\\"
  else if c = ';' then "\\;"
  else if c = ',' then "\\,"
  else if c = '\n' then "\\n"
  else String.singleton c

/-- `_escape`: four sequential single-character `str.replace` passes
(backslash first, then `;`, `,`, newline).  Because the backslashes the later
passes introduce precede characters none of the passes target, the sequential
composition acts exactly as this single character map. -/
def escapeIcs (s : String) : String := String.join (s.data.map escapeChar)

/-- `HEADER_TEMPLATE.format(title=..., tzid=...)`, as the list of its lines;
the trailing `""` models the template's trailing newline before the final
`"\n".join`. -/
def icsHeaderLines (title tzid : String) : List String :=
  ["BEGIN:VCALENDAR", "VERSION:2.0", "PRODID:-//dgtu-hack//route//EN",
   "X-WR-CALNAME:" ++ escapeIcs title, "X-WR-TIMEZONE:" ++ tzid,
   "BEGIN:VTIMEZONE", "TZID:" ++ tzid, "BEGIN:STANDARD",
   "DTSTART:19700329T000000", "TZOFFSETFROM:+0300", "TZOFFSETTO:+0300",
   "TZNAME:MSK", "END:STANDARD", "END:VTIMEZONE", ""]

def ICS_FOOTER : String := "END:VCALENDAR"

/-- The event description fallback chain of `make_ics` (Python `or` treats the
empty string as missing). -/
def icsDetail (description : Option String) (stop : IcsStop) : String :=
  let d0 := match description with
    | some s => s
    | none => ""
  let d1 := if d0 = "" then
      (match stop.description with
        | some s => s
        | none => "")
    else d0
  if d1 = "" then
    let tagLine := String.intercalate ", " stop.tags
    if tagLine = "" then "Маршрут по городу" else "Теги: " ++ tagLine
  else d1

/-- The eight lines of one `VEVENT` block. -/
def icsEventLines (tzid now : String) (description : Option String) (idx : ℕ)
    (stop : IcsStop) : List String :=
  ["BEGIN:VEVENT",
   "UID:" ++ stop.arrive ++ "@dgtu-hack",
   "DTSTAMP:" ++ now,
   "DTSTART;TZID=" ++ tzid ++ ":" ++ stop.arrive,
   "DTEND;TZID=" ++ tzid ++ ":" ++ stop.leave,
   "SUMMARY:" ++ escapeIcs (toString idx ++ ". " ++ stop.name),
   "DESCRIPTION:" ++ escapeIcs (icsDetail description stop),
   "END:VEVENT"]

/-- The event blocks for `enumerate(stops, start=1)`. -/
def icsEventsLines (tzid now : String) (description : Option String) :
    ℕ → List IcsStop → List String
  | _, [] => []
  | idx, s :: rest =>
    icsEventLines tzid now description idx s ++ icsEventsLines tzid now description (idx + 1) rest

/-- All lines of the payload.  `"\n".join([header, *events, footer])` equals
the `"\n"`-join of these lines because each event is itself a `"\n"`-join of
its lines and the header carries its trailing newline as the final `""`. -/
def makeIcsLines (stops : List IcsStop) (title : String) (description : Option String)
    (tzid now : String) : List String :=
  icsHeaderLines title tzid ++ icsEventsLines tzid now description 1 stops ++ [ICS_FOOTER]

/-- `make_ics` (the trailing `+ "\n"` of `body + "\n"` included). -/
def makeIcs (stops : List IcsStop) (title : String) (description : Option String)
    (tzid now : String) : String :=
  String.intercalate "\n" (makeIcsLines stops title description tzid now) ++ "\n"

/-- A payload line template: either a line independent of the generation
clock, or the `DTSTAMP` slot. -/
inductive IcsLine where
  | fixed (s : String)
  | stamp
  deriving DecidableEq

def renderIcsLine (now : String) : IcsLine → String
  | .fixed s => s
  | .stamp => "DTSTAMP:" ++ now

/-- The clock-independent template of one `VEVENT` block. -/
def icsEventTemplate (tzid : String) (description : Option String) (idx : ℕ)
    (stop : IcsStop) : List IcsLine :=
  [.fixed "BEGIN:VEVENT",
   .fixed ("UID:" ++ stop.arrive ++ "@dgtu-hack"),
   .stamp,
   .fixed ("DTSTART;TZID=" ++ tzid ++ ":" ++ stop.arrive),
   .fixed ("DTEND;TZID=" ++ tzid ++ ":" ++ stop.leave),
   .fixed ("SUMMARY:" ++ escapeIcs (toString idx ++ ". " ++ stop.name)),
   .fixed ("DESCRIPTION:" ++ escapeIcs (icsDetail description stop)),
   .fixed "END:VEVENT"]

def icsEventsTemplate (tzid : String) (description : Option String) :
    ℕ → List IcsStop → List IcsLine
  | _, [] => []
  | idx, s :: rest =>
    icsEventTemplate tzid description idx s ++ icsEventsTemplate tzid description (idx + 1) rest

/-- The clock-independent template of the whole payload. -/
def icsTemplate (stops : List IcsStop) (title : String) (description : Option String)
    (tzid : String) : List IcsLine :=
  (icsHeaderLines title tzid).map IcsLine.fixed ++ icsEventsTemplate tzid description 1 stops
    ++ [IcsLine.fixed ICS_FOOTER]

/-- A concrete computable metric with the signature of `haversine_km`
(taxicab distance on the coordinates), used to instantiate `DistFn` in
witnesses and counterexamples.  Like `haversine_km` it is non-negative,
symmetric and satisfies the triangle inequality. -/
def taxicab : DistFn := fun lat1 lon1 lat2 lon2 => |lat1 - lat2| + |lon1 - lon2|

/- Supporting lemmas: permutation and duplicate structure of the selection. -/

lemma insertDesc_perm {α} (f : α → ℚ) (a : α) (l : List α) :
    (insertDesc f a l).Perm (a :: l) := by
  induction l with
  | nil => simp [insertDesc]
  | cons b t ih =>
    by_cases h : f b ≤ f a
    · simp [insertDesc, h]
    · simpa [insertDesc, h] using (ih.cons b).trans (List.Perm.swap a b t)

lemma sortDescBy_perm {α} (f : α → ℚ) (l : List α) : (sortDescBy f l).Perm l := by
  induction l with
  | nil => simp [sortDescBy]
  | cons a t ih => exact (insertDesc_perm f a (sortDescBy f t)).trans (ih.cons a)

lemma mem_dedupFirstAux {α} [DecidableEq α] (l : List α) :
    ∀ (seen : List α) (x : α), x ∈ dedupFirstAux seen l ↔ x ∈ l ∧ x ∉ seen := by
  induction l with
  | nil => intro seen x; simp [dedupFirstAux]
  | cons a t ih =>
    intro seen x
    by_cases h : a ∈ seen
    · rw [dedupFirstAux, if_pos h, ih]
      constructor
      · rintro ⟨hx, hs⟩; exact ⟨List.mem_cons_of_mem a hx, hs⟩
      · rintro ⟨hx, hs⟩
        rcases List.mem_cons.mp hx with rfl | hx
        · exact absurd h hs
        · exact ⟨hx, hs⟩
    · rw [dedupFirstAux, if_neg h]
      constructor
      · intro hx
        rcases List.mem_cons.mp hx with rfl | hx
        · exact ⟨List.mem_cons_self _ _, h⟩
        · obtain ⟨h1, h2⟩ := (ih _ x).mp hx
          refine ⟨List.mem_cons_of_mem a h1, fun hseen => h2 ?_⟩
          exact List.mem_cons_of_mem a hseen
      · rintro ⟨hx, hs⟩
        rcases List.mem_cons.mp hx with rfl | hx
        · exact List.mem_cons_self _ _
        · by_cases hxa : x = a
          · subst hxa; exact List.mem_cons_self _ _
          · exact List.mem_cons_of_mem a ((ih _ x).mpr ⟨hx, by simp [hs, hxa]⟩)

lemma mem_dedupFirst {α} [DecidableEq α] (l : List α) (x : α) :
    x ∈ dedupFirst l ↔ x ∈ l := by
  simp [dedupFirst, mem_dedupFirstAux]

lemma dedupFirstAux_nodup {α} [DecidableEq α] (l : List α) :
    ∀ seen : List α, (dedupFirstAux seen l).Nodup := by
  induction l with
  | nil => intro seen; simp [dedupFirstAux]
  | cons a t ih =>
    intro seen
    by_cases h : a ∈ seen
    · rw [dedupFirstAux, if_pos h]; exact ih seen
    · rw [dedupFirstAux, if_neg h]
      refine List.nodup_cons.mpr ⟨?_, ih _⟩
      intro hmem
      exact ((mem_dedupFirstAux t _ a).mp hmem).2 (List.mem_cons_self a seen)

lemma dedupFirst_nodup {α} [DecidableEq α] (l : List α) : (dedupFirst l).Nodup :=
  dedupFirstAux_nodup l []

lemma foldl_maxBy_mem {α} (f : α → ℚ) (l : List α) :
    ∀ a : α, l.foldl (fun b x => if f b < f x then x else b) a ∈ a :: l := by
  induction l with
  | nil => intro a; simp
  | cons x t ih =>
    intro a
    rw [List.foldl_cons]
    by_cases hc : f a < f x
    · rw [if_pos hc]
      rcases List.mem_cons.mp (ih x) with h | h
      · simp [h, List.mem_cons]
      · simp [h, List.mem_cons]
    · rw [if_neg hc]
      rcases List.mem_cons.mp (ih a) with h | h
      · simp [h, List.mem_cons]
      · simp [h, List.mem_cons]

lemma pyMaxBy_mem {α} (f : α → ℚ) {l : List α} {b : α} (h : pyMaxBy f l = some b) :
    b ∈ l := by
  cases l with
  | nil => simp [pyMaxBy] at h
  | cons a t =>
    simp only [pyMaxBy, Option.some.injEq] at h
    exact h ▸ foldl_maxBy_mem f t a

lemma foldl_minBy_mem {α} (f : α → ℚ) (l : List α) :
    ∀ a : α, l.foldl (fun b x => if f x < f b then x else b) a ∈ a :: l := by
  induction l with
  | nil => intro a; simp
  | cons x t ih =>
    intro a
    rw [List.foldl_cons]
    by_cases hc : f x < f a
    · rw [if_pos hc]
      rcases List.mem_cons.mp (ih x) with h | h
      · simp [h, List.mem_cons]
      · simp [h, List.mem_cons]
    · rw [if_neg hc]
      rcases List.mem_cons.mp (ih a) with h | h
      · simp [h, List.mem_cons]
      · simp [h, List.mem_cons]

lemma pyMinBy_mem {α} (f : α → ℚ) {l : List α} {b : α} (h : pyMinBy f l = some b) :
    b ∈ l := by
  cases l with
  | nil => simp [pyMinBy] at h
  | cons a t =>
    simp only [pyMinBy, Option.some.injEq] at h
    exact h ▸ foldl_minBy_mem f t a

lemma fillUp_eq_append (cap : ℕ) :
    ∀ (rem acc : List Place), ∃ k, fillUp cap acc rem = acc ++ rem.take k := by
  intro rem
  induction rem with
  | nil => intro acc; exact ⟨0, by simp [fillUp]⟩
  | cons p rs ih =>
    intro acc
    by_cases h : cap ≤ acc.length
    · exact ⟨0, by simp [fillUp, h]⟩
    · obtain ⟨k, hk⟩ := ih (acc ++ [p])
      refine ⟨k + 1, ?_⟩
      rw [fillUp, if_neg h, hk, List.take_succ_cons, List.append_assoc, List.singleton_append]

lemma clusterStep_inv (sc : Place → ℚ) (src : List Place)
    (acc : List ((ℤ × ℤ) × Place)) (p : Place) (hp : p ∈ src)
    (h1 : ∀ e ∈ acc, clusterKey e.2.lat e.2.lon = e.1 ∧ e.2 ∈ src)
    (h2 : (acc.map Prod.fst).Nodup) :
    (∀ e ∈ clusterStep sc acc p, clusterKey e.2.lat e.2.lon = e.1 ∧ e.2 ∈ src) ∧
      ((clusterStep sc acc p).map Prod.fst).Nodup := by
  simp only [clusterStep]
  split
  next hf =>
    constructor
    · intro e he
      rcases List.mem_append.mp he with he | he
      · exact h1 e he
      · rcases List.mem_singleton.mp he with rfl
        exact ⟨rfl, hp⟩
    · rw [List.map_append]
      refine h2.append (by simp) ?_
      intro k2 hk hk'
      rcases List.mem_map.mp hk with ⟨e, he, rfl⟩
      rcases List.mem_map.mp hk' with ⟨e', he', hfst⟩
      rcases List.mem_singleton.mp he' with rfl
      have := List.find?_eq_none.mp hf e he
      simp only [decide_eq_true_eq] at this
      exact this (by simpa using hfst.symm)
  next e0 hf =>
    by_cases hlt : sc e0.2 < sc p
    · rw [if_pos hlt]
      constructor
      · intro e he
        rcases List.mem_map.mp he with ⟨e', he', rfl⟩
        by_cases hk : e'.1 = clusterKey p.lat p.lon
        · simp only [hk, if_pos rfl]
          exact ⟨rfl, hp⟩
        · simp only [if_neg hk]
          exact h1 e' he'
      · have : (updateAssoc (clusterKey p.lat p.lon) p acc).map Prod.fst = acc.map Prod.fst := by
          unfold updateAssoc
          rw [List.map_map]
          refine List.map_congr_left ?_
          intro e _
          by_cases hk : e.1 = clusterKey p.lat p.lon
          · simp [hk]
          · simp [hk]
        unfold updateAssoc at this ⊢
        rw [this]
        exact h2
    · rw [if_neg hlt]
      exact ⟨h1, h2⟩

lemma clusterFold_inv (sc : Place → ℚ) (src : List Place) :
    ∀ (l : List Place) (acc : List ((ℤ × ℤ) × Place)),
      (∀ p ∈ l, p ∈ src) →
      (∀ e ∈ acc, clusterKey e.2.lat e.2.lon = e.1 ∧ e.2 ∈ src) →
      (acc.map Prod.fst).Nodup →
      (∀ e ∈ l.foldl (clusterStep sc) acc, clusterKey e.2.lat e.2.lon = e.1 ∧ e.2 ∈ src) ∧
        ((l.foldl (clusterStep sc) acc).map Prod.fst).Nodup := by
  intro l
  induction l with
  | nil => intro acc _ h1 h2; exact ⟨h1, h2⟩
  | cons p t ih =>
    intro acc hl h1 h2
    rw [List.foldl_cons]
    obtain ⟨h1', h2'⟩ := clusterStep_inv sc src acc p (hl p (List.mem_cons_self p t)) h1 h2
    exact ih _ (fun q hq => hl q (List.mem_cons_of_mem p hq)) h1' h2'

lemma uniquePoolOf_subset (sc : Place → ℚ) (pool : List Place) :
    ∀ x ∈ uniquePoolOf sc pool, x ∈ pool := by
  intro x hx
  unfold uniquePoolOf at hx
  rcases List.mem_map.mp hx with ⟨e, he, rfl⟩
  exact ((clusterFold_inv sc pool pool [] (fun p hp => hp) (by simp) (by simp)).1 e he).2

lemma uniquePoolOf_nodup (sc : Place → ℚ) (pool : List Place) :
    (uniquePoolOf sc pool).Nodup := by
  obtain ⟨h1, h2⟩ := clusterFold_inv sc pool pool [] (fun p hp => hp) (by simp) (by simp)
  set acc := pool.foldl (clusterStep sc) [] with hacc
  have hkeys : acc.map Prod.fst = (acc.map Prod.snd).map (fun p => clusterKey p.lat p.lon) := by
    rw [List.map_map]
    refine List.map_congr_left ?_
    intro e he
    exact ((h1 e he).1).symm
  rw [hkeys] at h2
  exact List.Nodup.of_map _ h2

lemma pickPool_subset (d : DistFn) (places : List Place) (requested : List String)
    (origin : Option (ℚ × ℚ)) :
    ∀ x ∈ pickPool d places requested origin, x ∈ places := by
  intro x hx
  unfold pickPool at hx
  exact (sortDescBy_perm _ places).mem_iff.mp (List.mem_of_mem_take hx)

lemma pickCov_subset_pool (d : DistFn) (places : List Place) (requested : List String)
    (origin : Option (ℚ × ℚ)) :
    ∀ x ∈ pickCov d places requested origin, x ∈ pickPool d places requested origin := by
  intro x hx
  unfold pickCov coverageList at hx
  rw [mem_dedupFirst] at hx
  obtain ⟨tag, _, hmax⟩ := List.mem_filterMap.mp hx
  exact List.mem_of_mem_filter (pyMaxBy_mem _ hmax)

lemma pickRemaining_disjoint (d : DistFn) (places : List Place) (requested : List String)
    (origin : Option (ℚ × ℚ)) :
    ∀ x ∈ pickRemaining d places requested origin, x ∉ pickCov d places requested origin := by
  intro x hx
  unfold pickRemaining at hx
  have hx' := (sortDescBy_perm _ _).mem_iff.mp hx
  have := List.of_mem_filter hx'
  simpa using this

lemma pickRemaining_nodup (d : DistFn) (places : List Place) (requested : List String)
    (origin : Option (ℚ × ℚ)) : (pickRemaining d places requested origin).Nodup := by
  unfold pickRemaining
  exact (sortDescBy_perm _ _).nodup_iff.mpr ((uniquePoolOf_nodup _ _).filter _)

lemma pickRemaining_subset (d : DistFn) (places : List Place) (requested : List String)
    (origin : Option (ℚ × ℚ)) :
    ∀ x ∈ pickRemaining d places requested origin, x ∈ places := by
  intro x hx
  unfold pickRemaining at hx
  have hx' := (sortDescBy_perm _ _).mem_iff.mp hx
  exact pickPool_subset d places requested origin x
    (uniquePoolOf_subset _ _ x (List.mem_of_mem_filter hx'))

lemma pick_sub_nodup (d : DistFn) (places : List Place) (requested : List String)
    (origin : Option (ℚ × ℚ)) :
    (∀ x ∈ pickCandidates d places requested origin, x ∈ places) ∧
      (pickCandidates d places requested origin).Nodup := by
  unfold pickCandidates
  by_cases hp : places = []
  · simp [hp]
  · rw [if_neg hp]
    obtain ⟨k, hk⟩ :=
      fillUp_eq_append MAX_STOPS (pickRemaining d places requested origin)
        (pickCov d places requested origin)
    rw [hk]
    have hcovN : (pickCov d places requested origin).Nodup := dedupFirst_nodup _
    have happN :
        ((pickCov d places requested origin) ++
          (pickRemaining d places requested origin).take k).Nodup := by
      refine hcovN.append ((pickRemaining_nodup d places requested origin).sublist
        (List.take_sublist _ _)) ?_
      intro x hxc hxr
      exact pickRemaining_disjoint d places requested origin x
        (List.mem_of_mem_take hxr) hxc
    constructor
    · intro x hx
      rcases List.mem_append.mp (List.mem_of_mem_take hx) with hx | hx
      · exact pickPool_subset d places requested origin x
          (pickCov_subset_pool d places requested origin x hx)
      · exact pickRemaining_subset d places requested origin x (List.mem_of_mem_take hx)
    · exact happN.sublist (List.take_sublist _ _)

/-- C7: for every candidate list, requested-tag list and start point, the list
returned by `pick_candidates` has length at most `MAX_STOPS` (7) and at most
the length of the input candidate list. -/
theorem pick_candidates_length_bounds (d : DistFn) (places : List Place)
    (requested : List String) (origin : Option (ℚ × ℚ)) :
    (pickCandidates d places requested origin).length ≤ MAX_STOPS ∧
      (pickCandidates d places requested origin).length ≤ places.length := by
  constructor
  · unfold pickCandidates
    by_cases hp : places = []
    · simp [hp]
    · rw [if_neg hp]
      exact List.length_take_le _ _
  · obtain ⟨hsub, hnd⟩ := pick_sub_nodup d places requested origin
    calc (pickCandidates d places requested origin).length
        = (pickCandidates d places requested origin).toFinset.card :=
          (List.toFinset_card_of_nodup hnd).symm
      _ ≤ places.toFinset.card := by
          refine Finset.card_le_card ?_
          intro x hx
          rw [List.mem_toFinset] at hx ⊢
          exact hsub x hx
      _ ≤ places.length := places.toFinset_card_le

/-- C10: every place returned by `pick_candidates` is an element of the input
candidate list, and no place appears more than once in the returned list — the
selection is a duplicate-free sub-collection of the input. -/
theorem pick_candidates_subset_nodup (d : DistFn) (places : List Place)
    (requested : List String) (origin : Option (ℚ × ℚ)) :
    (∀ x ∈ pickCandidates d places requested origin, x ∈ places) ∧
      (pickCandidates d places requested origin).Nodup :=
  pick_sub_nodup d places requested origin

unseal Rat.add Rat.mul Rat.inv Rat.sub in
theorem pick_candidates_subset_nodup_witness :
    ((⟨"m", 0, 0, ["museum"], 0, 0, none⟩ : Place) ∈ ([⟨"m", 0, 0, ["museum"], 0, 0, none⟩,
        ⟨"q", 1, 1, [], 0, 0, none⟩] : List Place)) ∧
      (pickCandidates taxicab
        [⟨"m", 0, 0, ["museum"], 0, 0, none⟩, ⟨"q", 1, 1, [], 0, 0, none⟩]
        ["museum"] none).Nodup :=
  ⟨(pick_candidates_subset_nodup taxicab
      [⟨"m", 0, 0, ["museum"], 0, 0, none⟩, ⟨"q", 1, 1, [], 0, 0, none⟩]
      ["museum"] none).1 ⟨"m", 0, 0, ["museum"], 0, 0, none⟩ (by decide),
   (pick_candidates_subset_nodup taxicab
      [⟨"m", 0, 0, ["museum"], 0, 0, none⟩, ⟨"q", 1, 1, [], 0, 0, none⟩]
      ["museum"] none).2⟩

/-- C6: for every requested tag borne by at least one place in the shortlist
pool, and whenever the coverage picks all fit under the `MAX_STOPS` cap, the
selection returned by `pick_candidates` contains the highest-scoring pool
place with that tag (Python `max`: the first maximal one). -/
theorem pick_candidates_coverage (d : DistFn) (places : List Place)
    (requested : List String) (origin : Option (ℚ × ℚ)) (tag : String) (b : Place)
    (htag : tag ∈ requested)
    (hb : pyMaxBy (pickScore d requested origin)
        ((pickPool d places requested origin).filter (fun p => p.tags.contains tag)) = some b)
    (hcap : (pickCov d places requested origin).length ≤ MAX_STOPS) :
    b ∈ pickCandidates d places requested origin := by
  have hbmem : b ∈ pickCov d places requested origin := by
    unfold pickCov coverageList
    rw [mem_dedupFirst]
    exact List.mem_filterMap.mpr ⟨tag, (mem_dedupFirst _ _).mpr htag, hb⟩
  have hplaces : places ≠ [] := by
    intro h
    subst h
    have := pyMaxBy_mem _ hb
    simp [pickPool, sortDescBy] at this
  unfold pickCandidates
  rw [if_neg hplaces]
  obtain ⟨k, hk⟩ :=
    fillUp_eq_append MAX_STOPS (pickRemaining d places requested origin)
      (pickCov d places requested origin)
  rw [hk, List.take_append_eq_append_take, List.take_of_length_le hcap]
  exact List.mem_append_left _ hbmem

unseal Rat.add Rat.mul Rat.inv Rat.sub in
theorem pick_candidates_coverage_witness :
    (⟨"m", 0, 0, ["museum"], 0, 0, none⟩ : Place) ∈ pickCandidates taxicab
      [⟨"m", 0, 0, ["museum"], 0, 0, none⟩, ⟨"q", 1, 1, [], 0, 0, none⟩]
      ["museum"] none :=
  pick_candidates_coverage taxicab
    [⟨"m", 0, 0, ["museum"], 0, 0, none⟩, ⟨"q", 1, 1, [], 0, 0, none⟩]
    ["museum"] none "museum" ⟨"m", 0, 0, ["museum"], 0, 0, none⟩
    (by decide) (by decide) (by decide)

/- Supporting lemmas: the 2-opt / or-opt local search. -/

lemma reverseSegment_perm (route : List Place) (i j : ℕ) (hij : i ≤ j) :
    (reverseSegment route i j).Perm route := by
  unfold reverseSegment
  conv_rhs => rw [← List.take_append_drop (i + 1) route]
  rw [List.append_assoc]
  refine List.Perm.append_left _ ?_
  have hdd : (route.drop (i + 1)).drop (j - i) = route.drop (j + 1) := by
    rw [List.drop_drop]
    congr 1
    omega
  conv_rhs => rw [← List.take_append_drop (j - i) (route.drop (i + 1)), hdd]
  exact (List.reverse_perm _).append_right _

lemma twoOptPairs_le (n : ℕ) : ∀ ij ∈ twoOptPairs n, ij.1 ≤ ij.2 := by
  intro ij hij
  unfold twoOptPairs at hij
  rw [List.mem_flatMap] at hij
  obtain ⟨i, _, hmem⟩ := hij
  rw [List.mem_map] at hmem
  obtain ⟨j, hj, rfl⟩ := hmem
  have := List.mem_range'_1.mp hj
  simp only []
  omega

lemma twoOptFold_inv (d : DistFn) (sLat sLon : ℚ) (route0 : List Place) :
    ∀ (pairs : List (ℕ × ℕ)) (st : List Place × ℚ × Bool),
      (∀ ij ∈ pairs, ij.1 ≤ ij.2) →
      st.1.Perm route0 →
      st.2.1 = routeLen d sLat sLon st.1 →
      (st.2.2 = false → st.1 = route0) →
      (st.2.2 = true → st.2.1 + EPS < routeLen d sLat sLon route0) →
      ((pairs.foldl (twoOptStep d sLat sLon) st).1.Perm route0 ∧
        (pairs.foldl (twoOptStep d sLat sLon) st).2.1 =
          routeLen d sLat sLon (pairs.foldl (twoOptStep d sLat sLon) st).1 ∧
        ((pairs.foldl (twoOptStep d sLat sLon) st).2.2 = false →
          (pairs.foldl (twoOptStep d sLat sLon) st).1 = route0) ∧
        ((pairs.foldl (twoOptStep d sLat sLon) st).2.2 = true →
          (pairs.foldl (twoOptStep d sLat sLon) st).2.1 + EPS <
            routeLen d sLat sLon route0)) := by
  intro pairs
  induction pairs with
  | nil => intro st _ h1 h2 h3 h4; exact ⟨h1, h2, h3, h4⟩
  | cons ij rest ih =>
    intro st hp h1 h2 h3 h4
    rw [List.foldl_cons]
    have hstep : (twoOptStep d sLat sLon st ij).1.Perm route0 ∧
        (twoOptStep d sLat sLon st ij).2.1 =
          routeLen d sLat sLon (twoOptStep d sLat sLon st ij).1 ∧
        ((twoOptStep d sLat sLon st ij).2.2 = false →
          (twoOptStep d sLat sLon st ij).1 = route0) ∧
        ((twoOptStep d sLat sLon st ij).2.2 = true →
          (twoOptStep d sLat sLon st ij).2.1 + EPS < routeLen d sLat sLon route0) := by
      simp only [twoOptStep]
      by_cases hc : routeLen d sLat sLon (reverseSegment st.1 ij.1 ij.2) + EPS < st.2.1
      · rw [if_pos hc]
        refine ⟨(reverseSegment_perm st.1 ij.1 ij.2
            (hp ij (List.mem_cons_self _ _))).trans h1, rfl, ?_, ?_⟩
        · intro h; simp at h
        · intro _
          have hle : st.2.1 ≤ routeLen d sLat sLon route0 := by
            cases hb : st.2.2 with
            | false => rw [h2, h3 hb]
            | true =>
              have := h4 hb
              have hE : (0:ℚ) < EPS := by norm_num [EPS]
              linarith
          linarith
      · rw [if_neg hc]
        exact ⟨h1, h2, h3, h4⟩
    obtain ⟨g1, g2, g3, g4⟩ := hstep
    exact ih _ (fun x hx => hp x (List.mem_cons_of_mem ij hx)) g1 g2 g3 g4

lemma twoOptScan_inv (d : DistFn) (sLat sLon : ℚ) (route : List Place) :
    (twoOptScan d sLat sLon route).1.Perm route ∧
      (twoOptScan d sLat sLon route).2.1 =
        routeLen d sLat sLon (twoOptScan d sLat sLon route).1 ∧
      ((twoOptScan d sLat sLon route).2.2 = false →
        (twoOptScan d sLat sLon route).1 = route) ∧
      ((twoOptScan d sLat sLon route).2.2 = true →
        (twoOptScan d sLat sLon route).2.1 + EPS < routeLen d sLat sLon route) := by
  unfold twoOptScan
  exact twoOptFold_inv d sLat sLon route (twoOptPairs route.length) _
    (twoOptPairs_le _) (List.Perm.refl _) rfl (fun _ => rfl) (by intro h; simp at h)

lemma twoOptScan_improved_lt (d : DistFn) (sLat sLon : ℚ) (route : List Place)
    (h : (twoOptScan d sLat sLon route).2.2 = true) :
    routeLen d sLat sLon (twoOptScan d sLat sLon route).1 + EPS <
      routeLen d sLat sLon route := by
  obtain ⟨_, h2, _, h4⟩ := twoOptScan_inv d sLat sLon route
  rw [← h2]
  exact h4 h

lemma twoOptLoop_succ (d : DistFn) (sLat sLon : ℚ) (n : ℕ) (route : List Place) :
    twoOptLoop d sLat sLon (n + 1) route =
      if (twoOptScan d sLat sLon route).2.2 then
        twoOptLoop d sLat sLon n (twoOptScan d sLat sLon route).1
      else route := rfl

lemma twoOptLoop_len_le (d : DistFn) (sLat sLon : ℚ) :
    ∀ (fuel : ℕ) (route : List Place),
      routeLen d sLat sLon (twoOptLoop d sLat sLon fuel route) ≤
        routeLen d sLat sLon route := by
  intro fuel
  induction fuel with
  | zero => intro route; simp [twoOptLoop]
  | succ n ih =>
    intro route
    rw [twoOptLoop_succ]
    by_cases h : (twoOptScan d sLat sLon route).2.2
    · rw [if_pos h]
      have hE : (0:ℚ) < EPS := by norm_num [EPS]
      have := twoOptScan_improved_lt d sLat sLon route h
      have := ih (twoOptScan d sLat sLon route).1
      linarith
    · rw [if_neg h]

lemma twoOptLoop_perm (d : DistFn) (sLat sLon : ℚ) :
    ∀ (fuel : ℕ) (route : List Place),
      (twoOptLoop d sLat sLon fuel route).Perm route := by
  intro fuel
  induction fuel with
  | zero => intro route; simp [twoOptLoop]
  | succ n ih =>
    intro route
    rw [twoOptLoop_succ]
    by_cases h : (twoOptScan d sLat sLon route).2.2
    · rw [if_pos h]
      exact (ih _).trans (twoOptScan_inv d sLat sLon route).1
    · rw [if_neg h]

lemma twoOptLoop_stable (d : DistFn) (sLat sLon : ℚ) :
    ∀ (n : ℕ) (route : List Place),
      (((route.permutations.map (routeLen d sLat sLon)).toFinset.filter
          (fun l => l < routeLen d sLat sLon route)).card) < n →
      (∀ k, twoOptLoop d sLat sLon (n + k) route = twoOptLoop d sLat sLon n route) ∧
        (twoOptScan d sLat sLon (twoOptLoop d sLat sLon n route)).2.2 = false := by
  intro n
  induction n with
  | zero => intro route h; omega
  | succ m ih =>
    intro route hcard
    by_cases himp : (twoOptScan d sLat sLon route).2.2 = true
    · set r := (twoOptScan d sLat sLon route).1 with hr
      have hperm : r.Perm route := (twoOptScan_inv d sLat sLon route).1
      have hE : (0:ℚ) < EPS := by norm_num [EPS]
      have hlt : routeLen d sLat sLon r < routeLen d sLat sLon route := by
        have := twoOptScan_improved_lt d sLat sLon route himp
        linarith
      have hSeq : (r.permutations.map (routeLen d sLat sLon)).toFinset =
          (route.permutations.map (routeLen d sLat sLon)).toFinset :=
        List.toFinset_eq_of_perm _ _ (hperm.permutations.map (routeLen d sLat sLon))
      have hmem : routeLen d sLat sLon r ∈
          (route.permutations.map (routeLen d sLat sLon)).toFinset := by
        rw [List.mem_toFinset]
        exact List.mem_map_of_mem _ (List.mem_permutations.mpr hperm)
      have hsub :
          (route.permutations.map (routeLen d sLat sLon)).toFinset.filter
              (fun l => l < routeLen d sLat sLon r) ⊆
            (route.permutations.map (routeLen d sLat sLon)).toFinset.filter
              (fun l => l < routeLen d sLat sLon route) := by
        intro l hl
        rw [Finset.mem_filter] at hl ⊢
        exact ⟨hl.1, lt_trans hl.2 hlt⟩
      have hcard' :
          (((r.permutations.map (routeLen d sLat sLon)).toFinset.filter
              (fun l => l < routeLen d sLat sLon r)).card) < m := by
        rw [hSeq]
        have hss :
            (route.permutations.map (routeLen d sLat sLon)).toFinset.filter
                (fun l => l < routeLen d sLat sLon r) ⊂
              (route.permutations.map (routeLen d sLat sLon)).toFinset.filter
                (fun l => l < routeLen d sLat sLon route) := by
          rw [Finset.ssubset_iff_of_subset hsub]
          exact ⟨routeLen d sLat sLon r, Finset.mem_filter.mpr ⟨hmem, hlt⟩,
            fun hmem' => lt_irrefl _ (Finset.mem_filter.mp hmem').2⟩
        have := Finset.card_lt_card hss
        omega
      obtain ⟨hstab, hfix⟩ := ih r hcard'
      constructor
      · intro k
        have e1 : m + 1 + k = (m + k) + 1 := by omega
        rw [e1, twoOptLoop_succ, if_pos himp, twoOptLoop_succ, if_pos himp]
        exact hstab k
      · rw [twoOptLoop_succ, if_pos himp]
        exact hfix
    · have himp' : (twoOptScan d sLat sLon route).2.2 = false := by
        cases h : (twoOptScan d sLat sLon route).2.2 with
        | false => rfl
        | true => exact absurd h himp
      constructor
      · intro k
        have e1 : m + 1 + k = (m + k) + 1 := by omega
        rw [e1, twoOptLoop_succ, if_neg (by rw [himp']; exact Bool.false_ne_true),
          twoOptLoop_succ, if_neg (by rw [himp']; exact Bool.false_ne_true)]
      · rw [twoOptLoop_succ, if_neg (by rw [himp']; exact Bool.false_ne_true)]
        exact himp'

lemma measure_lt_fuel (d : DistFn) (sLat sLon : ℚ) (route : List Place) :
    (((route.permutations.map (routeLen d sLat sLon)).toFinset.filter
        (fun l => l < routeLen d sLat sLon route)).card) <
      route.length.factorial + 1 := by
  have h1 := Finset.card_filter_le
    ((route.permutations.map (routeLen d sLat sLon)).toFinset)
    (fun l => l < routeLen d sLat sLon route)
  have h2 := List.toFinset_card_le (route.permutations.map (routeLen d sLat sLon))
  rw [List.length_map, List.length_permutations] at h2
  omega

lemma orOptFold_le (d : DistFn) (sLat sLon : ℚ) (node : Place) (rest : List Place) :
    ∀ (js : List ℕ) (st : List Place × ℚ), st.2 = routeLen d sLat sLon st.1 →
      ((js.foldl (orOptStep d sLat sLon node rest) st).2 =
        routeLen d sLat sLon (js.foldl (orOptStep d sLat sLon node rest) st).1) ∧
      (js.foldl (orOptStep d sLat sLon node rest) st).2 ≤ st.2 := by
  intro js
  induction js with
  | nil => exact fun st h => ⟨h, le_refl _⟩
  | cons j t ih =>
    intro st h
    rw [List.foldl_cons]
    have hstep : (orOptStep d sLat sLon node rest st j).2 =
        routeLen d sLat sLon (orOptStep d sLat sLon node rest st j).1 ∧
        (orOptStep d sLat sLon node rest st j).2 ≤ st.2 := by
      simp only [orOptStep]
      by_cases hc : routeLen d sLat sLon (rest.take j ++ node :: rest.drop j) + EPS < st.2
      · rw [if_pos hc]
        have hE : (0:ℚ) < EPS := by norm_num [EPS]
        exact ⟨rfl, by linarith⟩
      · rw [if_neg hc]
        exact ⟨h, le_refl _⟩
    obtain ⟨g1, g2⟩ := hstep
    obtain ⟨r1, r2⟩ := ih _ g1
    exact ⟨r1, le_trans r2 g2⟩

lemma orOptPass_len_le (d : DistFn) (sLat sLon : ℚ) (best : List Place) (i : ℕ) :
    routeLen d sLat sLon (orOptPass d sLat sLon best i) ≤ routeLen d sLat sLon best := by
  unfold orOptPass
  obtain ⟨h1, h2⟩ := orOptFold_le d sLat sLon (best.getD i default)
    (best.take i ++ best.drop (i + 1))
    (List.range ((best.take i ++ best.drop (i + 1)).length + 1))
    (best, routeLen d sLat sLon best) rfl
  rw [← h1]
  exact h2

lemma orOptFoldAll_le (d : DistFn) (sLat sLon : ℚ) :
    ∀ (is : List ℕ) (route : List Place),
      routeLen d sLat sLon (is.foldl (orOptPass d sLat sLon) route) ≤
        routeLen d sLat sLon route := by
  intro is
  induction is with
  | nil => intro route; exact le_refl _
  | cons i t ih =>
    intro route
    rw [List.foldl_cons]
    exact le_trans (ih _) (orOptPass_len_le d sLat sLon route i)

lemma orOpt_len_le (d : DistFn) (sLat sLon : ℚ) (route : List Place) :
    routeLen d sLat sLon (orOpt d sLat sLon route) ≤ routeLen d sLat sLon route := by
  unfold orOpt
  exact orOptFoldAll_le d sLat sLon _ route

lemma routeLenFrom_nonneg (d : DistFn) (hd : ∀ a b c e, 0 ≤ d a b c e) :
    ∀ (l : List Place) (lat lon : ℚ), 0 ≤ routeLenFrom d lat lon l := by
  intro l
  induction l with
  | nil => intro lat lon; exact le_refl _
  | cons p r ih =>
    intro lat lon
    exact add_nonneg (hd _ _ _ _) (ih _ _)

/-- C8: for every start point and every input of at least 3 places, the total
route length of the sequence returned by `order_by_nearest` (nearest neighbour
followed by 2-opt and or-opt) is at most the route length of the plain
nearest-neighbour sequence on the same input. -/
theorem sequencer_non_regression (d : DistFn) (sLat sLon : ℚ) (places : List Place)
    (h3 : 3 ≤ places.length) :
    routeLen d sLat sLon (orderByNearest d sLat sLon places) ≤
      routeLen d sLat sLon (nearestNeighbor d sLat sLon places) := by
  have hne : places ≠ [] := by
    intro h
    subst h
    simp at h3
  unfold orderByNearest
  rw [if_neg hne]
  refine le_trans (orOpt_len_le d sLat sLon _) ?_
  unfold twoOpt
  exact twoOptLoop_len_le d sLat sLon _ _

unseal Rat.add Rat.mul Rat.inv Rat.sub in
theorem sequencer_non_regression_witness :
    3 ≤ ([⟨"a", 0, 3, [], 0, 0, none⟩, ⟨"b", 0, 1, [], 0, 0, none⟩,
        ⟨"c", 0, 2, [], 0, 0, none⟩] : List Place).length ∧
      routeLen taxicab 0 0 (orderByNearest taxicab 0 0
          [⟨"a", 0, 3, [], 0, 0, none⟩, ⟨"b", 0, 1, [], 0, 0, none⟩,
           ⟨"c", 0, 2, [], 0, 0, none⟩]) ≤
        routeLen taxicab 0 0 (nearestNeighbor taxicab 0 0
          [⟨"a", 0, 3, [], 0, 0, none⟩, ⟨"b", 0, 1, [], 0, 0, none⟩,
           ⟨"c", 0, 2, [], 0, 0, none⟩]) :=
  ⟨by decide,
   sequencer_non_regression taxicab 0 0
     [⟨"a", 0, 3, [], 0, 0, none⟩, ⟨"b", 0, 1, [], 0, 0, none⟩,
      ⟨"c", 0, 2, [], 0, 0, none⟩] (by decide)⟩

/-- C9: the 2-opt and or-opt local-search loops terminate.  The `while
improved` loop of `_two_opt` is modelled by `twoOptLoop` with fuel
`n! + 1`:  any additional fuel leaves the result unchanged (the loop has
already reached its fixpoint), the resulting route admits no further
improving scan, and every improving scan strictly decreases the route length
by more than the `1e-9` epsilon.  `_or_opt` is a single bounded pass whose
accepted relocations never increase the length, and the route length is
non-negative whenever the distance function is. -/
theorem local_search_terminates (d : DistFn) (sLat sLon : ℚ) (route : List Place) :
    (∀ k, twoOptLoop d sLat sLon (route.length.factorial + 1 + k) route =
        twoOpt d sLat sLon route) ∧
      (twoOptScan d sLat sLon (twoOpt d sLat sLon route)).2.2 = false ∧
      ((twoOptScan d sLat sLon route).2.2 = true →
        routeLen d sLat sLon (twoOptScan d sLat sLon route).1 + EPS <
          routeLen d sLat sLon route) ∧
      (∀ i, routeLen d sLat sLon (orOptPass d sLat sLon route i) ≤
        routeLen d sLat sLon route) ∧
      ((∀ a b c e, 0 ≤ d a b c e) → 0 ≤ routeLen d sLat sLon route) := by
  obtain ⟨hstab, hfix⟩ := twoOptLoop_stable d sLat sLon
    (route.length.factorial + 1) route (measure_lt_fuel d sLat sLon route)
  exact ⟨fun k => hstab k, hfix, twoOptScan_improved_lt d sLat sLon route,
    fun i => orOptPass_len_le d sLat sLon route i,
    fun hd => routeLenFrom_nonneg d hd route sLat sLon⟩

unseal Rat.add Rat.mul Rat.inv Rat.sub in
theorem local_search_terminates_witness :
    twoOptLoop taxicab 0 0
        (([⟨"a", 0, 3, [], 0, 0, none⟩, ⟨"b", 0, 1, [], 0, 0, none⟩,
           ⟨"c", 0, 2, [], 0, 0, none⟩] : List Place).length.factorial + 1 + 5)
        [⟨"a", 0, 3, [], 0, 0, none⟩, ⟨"b", 0, 1, [], 0, 0, none⟩,
         ⟨"c", 0, 2, [], 0, 0, none⟩] =
      twoOpt taxicab 0 0
        [⟨"a", 0, 3, [], 0, 0, none⟩, ⟨"b", 0, 1, [], 0, 0, none⟩,
         ⟨"c", 0, 2, [], 0, 0, none⟩] ∧
    (twoOptScan taxicab 0 0 (twoOpt taxicab 0 0
        [⟨"a", 0, 3, [], 0, 0, none⟩, ⟨"b", 0, 1, [], 0, 0, none⟩,
         ⟨"c", 0, 2, [], 0, 0, none⟩])).2.2 = false ∧
    routeLen taxicab 0 0 (twoOptScan taxicab 0 0
        [⟨"a", 0, 3, [], 0, 0, none⟩, ⟨"b", 0, 1, [], 0, 0, none⟩,
         ⟨"c", 0, 2, [], 0, 0, none⟩]).1 + EPS <
      routeLen taxicab 0 0
        [⟨"a", 0, 3, [], 0, 0, none⟩, ⟨"b", 0, 1, [], 0, 0, none⟩,
         ⟨"c", 0, 2, [], 0, 0, none⟩] ∧
    routeLen taxicab 0 0 (orOptPass taxicab 0 0
        [⟨"a", 0, 3, [], 0, 0, none⟩, ⟨"b", 0, 1, [], 0, 0, none⟩,
         ⟨"c", 0, 2, [], 0, 0, none⟩] 1) ≤
      routeLen taxicab 0 0
        [⟨"a", 0, 3, [], 0, 0, none⟩, ⟨"b", 0, 1, [], 0, 0, none⟩,
         ⟨"c", 0, 2, [], 0, 0, none⟩] ∧
    (0:ℚ) ≤ routeLen taxicab 0 0
        [⟨"a", 0, 3, [], 0, 0, none⟩, ⟨"b", 0, 1, [], 0, 0, none⟩,
         ⟨"c", 0, 2, [], 0, 0, none⟩] := by
  obtain ⟨h1, h2, h3, h4, h5⟩ := local_search_terminates taxicab 0 0
    [⟨"a", 0, 3, [], 0, 0, none⟩, ⟨"b", 0, 1, [], 0, 0, none⟩,
     ⟨"c", 0, 2, [], 0, 0, none⟩]
  refine ⟨h1 5, h2, h3 (by decide), h4 1, h5 ?_⟩
  intro a b c e
  unfold taxicab
  positivity

/- Supporting lemmas: the meal-insertion step. -/

lemma routeLenFrom_insert_ge (d : DistFn)
    (hnn : ∀ a b c e, 0 ≤ d a b c e)
    (htri : ∀ a1 b1 a2 b2 a3 b3, d a1 b1 a3 b3 ≤ d a1 b1 a2 b2 + d a2 b2 a3 b3)
    (x : Place) :
    ∀ (l1 l2 : List Place) (lat lon : ℚ),
      routeLenFrom d lat lon (l1 ++ l2) ≤ routeLenFrom d lat lon (l1 ++ x :: l2) := by
  intro l1
  induction l1 with
  | nil =>
    intro l2 lat lon
    cases l2 with
    | nil =>
      simp only [List.nil_append, routeLenFrom]
      have := hnn lat lon x.lat x.lon
      linarith
    | cons y t =>
      simp only [List.nil_append, routeLenFrom]
      have := htri lat lon x.lat x.lon y.lat y.lon
      linarith
  | cons p r ih =>
    intro l2 lat lon
    simp only [List.cons_append, routeLenFrom, List.append_eq]
    have := ih l2 p.lat p.lon
    linarith

lemma insertFoodFold_id (d : DistFn) (sLat sLon : ℚ) (best : Place) (ordered : List Place)
    (hge : ∀ j, routeLen d sLat sLon ordered ≤
      routeLen d sLat sLon (ordered.take j ++ best :: ordered.drop j)) :
    ∀ js : List ℕ,
      js.foldl (insertFoodStep d sLat sLon best ordered)
        (ordered, routeLen d sLat sLon ordered) =
      (ordered, routeLen d sLat sLon ordered) := by
  intro js
  induction js with
  | nil => rfl
  | cons j t ih =>
    rw [List.foldl_cons]
    have hstep : insertFoodStep d sLat sLon best ordered
        (ordered, routeLen d sLat sLon ordered) j =
        (ordered, routeLen d sLat sLon ordered) := by
      simp only [insertFoodStep]
      rw [if_neg (not_lt.mpr (hge j))]
    rw [hstep]
    exact ih

/-- For any distance function that is non-negative and satisfies the triangle
inequality — as the haversine great-circle distance does — `_maybe_insert_food`
returns its input unchanged: inserting a point can never strictly shorten the
route, and the acceptance test starts from the no-insertion length with a
strict `<`. -/
theorem maybeInsertFood_noop (d : DistFn) (sLat sLon : ℚ) (ordered allPlaces : List Place)
    (hnn : ∀ a b c e, 0 ≤ d a b c e)
    (htri : ∀ a1 b1 a2 b2 a3 b3, d a1 b1 a3 b3 ≤ d a1 b1 a2 b2 + d a2 b2 a3 b3) :
    maybeInsertFood d sLat sLon ordered allPlaces = ordered := by
  simp only [maybeInsertFood]
  by_cases h0 : ordered = []
  · rw [if_pos h0]
  · rw [if_neg h0]
    by_cases h1 : ordered.any hasFoodTag
    · rw [if_pos h1]
    · rw [if_neg h1]
      have hge : ∀ best j, routeLen d sLat sLon ordered ≤
          routeLen d sLat sLon (ordered.take j ++ best :: ordered.drop j) := by
        intro best j
        conv_lhs => rw [show ordered = ordered.take j ++ ordered.drop j from
          (List.take_append_drop j ordered).symm]
        exact routeLenFrom_insert_ge d hnn htri best _ _ sLat sLon
      cases hmin : pyMinBy
          (fun p => d (ordered.getD (ordered.length / 2) default).lat
            (ordered.getD (ordered.length / 2) default).lon p.lat p.lon)
          (allPlaces.filter (fun p => hasFoodTag p && !(ordered.contains p))) with
      | none => simp [hmin]
      | some best =>
        simp only [hmin]
        rw [insertFoodFold_id d sLat sLon best ordered (hge best)]

lemma taxicab_nonneg : ∀ a b c e : ℚ, 0 ≤ taxicab a b c e := by
  intro a b c e
  unfold taxicab
  positivity

lemma taxicab_triangle : ∀ a1 b1 a2 b2 a3 b3 : ℚ,
    taxicab a1 b1 a3 b3 ≤ taxicab a1 b1 a2 b2 + taxicab a2 b2 a3 b3 := by
  intro a1 b1 a2 b2 a3 b3
  unfold taxicab
  have h1 := abs_sub_le a1 a2 a3
  have h2 := abs_sub_le b1 b2 b3
  linarith

/-- C2 (code bug): a concrete run satisfying every side-condition of the
claim — an ordered sequence of 4 places, none food/coffee-tagged, and a
food-tagged place in the candidate pool outside the sequence — on which
`_maybe_insert_food` returns the sequence unchanged instead of inserting the
nearest food place.  The acceptance test `l < best_len` is initialised with
the no-insertion route length, which no insertion can beat under the triangle
inequality (see `maybeInsertFood_noop`), so the meal-insertion step is dead
code. -/
theorem maybe_insert_food_never_inserts :
    4 ≤ ([⟨"a", 0, 1, [], 0, 0, none⟩, ⟨"b", 0, 2, [], 0, 0, none⟩,
          ⟨"c", 0, 3, [], 0, 0, none⟩, ⟨"d", 0, 4, [], 0, 0, none⟩] : List Place).length ∧
    ([⟨"a", 0, 1, [], 0, 0, none⟩, ⟨"b", 0, 2, [], 0, 0, none⟩,
      ⟨"c", 0, 3, [], 0, 0, none⟩, ⟨"d", 0, 4, [], 0, 0, none⟩] : List Place).any
        hasFoodTag = false ∧
    hasFoodTag ⟨"f", 0, 5, ["food"], 0, 0, none⟩ = true ∧
    (⟨"f", 0, 5, ["food"], 0, 0, none⟩ : Place) ∉
      ([⟨"a", 0, 1, [], 0, 0, none⟩, ⟨"b", 0, 2, [], 0, 0, none⟩,
        ⟨"c", 0, 3, [], 0, 0, none⟩, ⟨"d", 0, 4, [], 0, 0, none⟩] : List Place) ∧
    maybeInsertFood taxicab 0 0
      [⟨"a", 0, 1, [], 0, 0, none⟩, ⟨"b", 0, 2, [], 0, 0, none⟩,
       ⟨"c", 0, 3, [], 0, 0, none⟩, ⟨"d", 0, 4, [], 0, 0, none⟩]
      [⟨"a", 0, 1, [], 0, 0, none⟩, ⟨"b", 0, 2, [], 0, 0, none⟩,
       ⟨"c", 0, 3, [], 0, 0, none⟩, ⟨"d", 0, 4, [], 0, 0, none⟩,
       ⟨"f", 0, 5, ["food"], 0, 0, none⟩] =
      [⟨"a", 0, 1, [], 0, 0, none⟩, ⟨"b", 0, 2, [], 0, 0, none⟩,
       ⟨"c", 0, 3, [], 0, 0, none⟩, ⟨"d", 0, 4, [], 0, 0, none⟩] := by
  refine ⟨by decide, by decide, by decide, by decide, ?_⟩
  exact maybeInsertFood_noop taxicab 0 0 _ _ taxicab_nonneg taxicab_triangle

/- Supporting lemmas: the schedule loop. -/

lemma travelMinutes_ge_min (dkm : ℚ) : MIN_TRAVEL_MINUTES ≤ travelMinutes dkm := by
  simp only [travelMinutes]
  exact le_max_left _ _

lemma travelMinutes_nonneg (dkm : ℚ) : 0 ≤ travelMinutes dkm := by
  have := travelMinutes_ge_min dkm
  have h8 : (0:ℤ) ≤ MIN_TRAVEL_MINUTES := by norm_num [MIN_TRAVEL_MINUTES]
  omega

lemma durationForPlace_nonneg (p : Place) : 0 ≤ durationForPlace p := by
  unfold durationForPlace
  split_ifs <;> norm_num

lemma alignGo_ge (cur : ℤ) : ∀ l, cur ≤ alignGo cur l := by
  intro l
  induction l with
  | nil => exact le_refl _
  | cons s rest ih =>
    simp only [alignGo]
    split
    · exact le_max_left _ _
    · exact ih

lemma alignToOpening_ge (cur : ℤ) (slots : Option (List ((ℕ × ℕ) × (ℕ × ℕ)))) :
    cur ≤ alignToOpening cur slots := by
  cases slots with
  | none => exact le_refl _
  | some l => exact alignGo_ge cur l

lemma scheduleStep_arrive_ge (d : DistFn) (place : Place) (idx : ℕ) (t : ℤ)
    (la lo : ℚ) (latch : Option ℕ) :
    t + travelMinutes (d la lo place.lat place.lon) ≤
      (scheduleStep d place idx t la lo latch).1.arrive := by
  have halign := alignToOpening_ge (t + travelMinutes (d la lo place.lat place.lon))
    (parseHours place)
  simp only [scheduleStep]
  split_ifs <;> omega

lemma scheduleStep_leave_eq (d : DistFn) (place : Place) (idx : ℕ) (t : ℤ)
    (la lo : ℚ) (latch : Option ℕ) :
    (scheduleStep d place idx t la lo latch).1.leave =
      (scheduleStep d place idx t la lo latch).1.arrive + durationForPlace place := rfl

lemma scheduleGo_chrono (d : DistFn) (hardStop : Option ℤ) :
    ∀ (ordered : List Place) (idx : ℕ) (t : ℤ) (la lo : ℚ) (latch : Option ℕ),
      Chrono t (scheduleGo d hardStop ordered idx t la lo latch).1 := by
  intro ordered
  induction ordered with
  | nil =>
    intro idx t la lo latch
    simp [scheduleGo, Chrono]
  | cons place rest ih =>
    intro idx t la lo latch
    have h1 := scheduleStep_arrive_ge d place idx t la lo latch
    have htr := travelMinutes_nonneg (d la lo place.lat place.lon)
    have hlv := scheduleStep_leave_eq d place idx t la lo latch
    have hdur := durationForPlace_nonneg place
    simp only [scheduleGo]
    split
    · exact ⟨by omega, by omega, ih _ _ _ _ _⟩
    · exact trivial

lemma chrono_index :
    ∀ (stops : List Stop) (t : ℤ), Chrono t stops →
      ∀ i, i < stops.length →
        ((stops.getD i default).arrive ≤ (stops.getD i default).leave ∧
          (i + 1 < stops.length →
            (stops.getD i default).leave ≤ (stops.getD (i + 1) default).arrive)) := by
  intro stops
  induction stops with
  | nil => intro t _ i hi; simp at hi
  | cons s rest ih =>
    intro t hc i hi
    obtain ⟨h1, h2, h3⟩ := hc
    cases i with
    | zero =>
      refine ⟨by simpa using h2, ?_⟩
      intro hlen
      cases rest with
      | nil => simp at hlen
      | cons s2 r2 =>
        simpa using h3.1
    | succ n =>
      have := ih s.leave h3 n (by simpa using hi)
      simpa using this

/-- C4: in every itinerary returned by `build_route` each stop's arrival is at
or before its departure, and consecutive stops are time-ordered and
non-overlapping (`leave[i] ≤ arrive[i+1]`), regardless of opening-hour
alignment and lunch padding. -/
theorem schedule_monotone (d : DistFn) (city : String) (places : List Place)
    (tags : List String) (startLocation : Option (ℚ × ℚ)) (dayEnd : Option ℤ) (i : ℕ)
    (hi : i < (buildRoute d city places tags startLocation dayEnd).stops.length) :
    ((buildRoute d city places tags startLocation dayEnd).stops.getD i default).arrive ≤
        ((buildRoute d city places tags startLocation dayEnd).stops.getD i default).leave ∧
      (i + 1 < (buildRoute d city places tags startLocation dayEnd).stops.length →
        ((buildRoute d city places tags startLocation dayEnd).stops.getD i default).leave ≤
          ((buildRoute d city places tags startLocation dayEnd).stops.getD
            (i + 1) default).arrive) :=
  chrono_index _ _
    (scheduleGo_chrono d dayEnd (routeOrdered d city places tags startLocation) 0
      DEFAULT_START_MIN (startLocation.getD (cityCenter city)).1
      (startLocation.getD (cityCenter city)).2 none) i hi

unseal Rat.add Rat.mul Rat.inv Rat.sub in
theorem schedule_monotone_witness :
    (((buildRoute taxicab "Ростов-на-Дону"
          [⟨"a", 0, 1, ["museum"], 0, 0, none⟩, ⟨"b", 0, 2, [], 0, 0, none⟩]
          [] (some (0, 0)) (some 1200)).stops.getD 0 default).arrive ≤
        ((buildRoute taxicab "Ростов-на-Дону"
          [⟨"a", 0, 1, ["museum"], 0, 0, none⟩, ⟨"b", 0, 2, [], 0, 0, none⟩]
          [] (some (0, 0)) (some 1200)).stops.getD 0 default).leave) ∧
      (0 + 1 < (buildRoute taxicab "Ростов-на-Дону"
          [⟨"a", 0, 1, ["museum"], 0, 0, none⟩, ⟨"b", 0, 2, [], 0, 0, none⟩]
          [] (some (0, 0)) (some 1200)).stops.length →
        ((buildRoute taxicab "Ростов-на-Дону"
          [⟨"a", 0, 1, ["museum"], 0, 0, none⟩, ⟨"b", 0, 2, [], 0, 0, none⟩]
          [] (some (0, 0)) (some 1200)).stops.getD 0 default).leave ≤
          ((buildRoute taxicab "Ростов-на-Дону"
            [⟨"a", 0, 1, ["museum"], 0, 0, none⟩, ⟨"b", 0, 2, [], 0, 0, none⟩]
            [] (some (0, 0)) (some 1200)).stops.getD (0 + 1) default).arrive) :=
  schedule_monotone taxicab "Ростов-на-Дону"
    [⟨"a", 0, 1, ["museum"], 0, 0, none⟩, ⟨"b", 0, 2, [], 0, 0, none⟩]
    [] (some (0, 0)) (some 1200) 0 (by decide)

lemma scheduleGo_cons_none (d : DistFn) (place : Place) (rest : List Place) (idx : ℕ)
    (t : ℤ) (la lo : ℚ) (latch : Option ℕ) :
    scheduleGo d none (place :: rest) idx t la lo latch =
      ((scheduleStep d place idx t la lo latch).1 ::
        (scheduleGo d none rest (idx + 1) (scheduleStep d place idx t la lo latch).1.leave
          place.lat place.lon (scheduleStep d place idx t la lo latch).2).1,
       (scheduleStep d place idx t la lo latch).1.travel_min_from_prev +
         durationForPlace place +
         (scheduleGo d none rest (idx + 1) (scheduleStep d place idx t la lo latch).1.leave
           place.lat place.lon (scheduleStep d place idx t la lo latch).2).2) := rfl

lemma scheduleGo_cons_some (d : DistFn) (c : ℤ) (place : Place) (rest : List Place)
    (idx : ℕ) (t : ℤ) (la lo : ℚ) (latch : Option ℕ) :
    scheduleGo d (some c) (place :: rest) idx t la lo latch =
      if decide ((scheduleStep d place idx t la lo latch).1.leave ≤ c) = true then
        ((scheduleStep d place idx t la lo latch).1 ::
          (scheduleGo d (some c) rest (idx + 1)
            (scheduleStep d place idx t la lo latch).1.leave place.lat place.lon
            (scheduleStep d place idx t la lo latch).2).1,
         (scheduleStep d place idx t la lo latch).1.travel_min_from_prev +
           durationForPlace place +
           (scheduleGo d (some c) rest (idx + 1)
             (scheduleStep d place idx t la lo latch).1.leave place.lat place.lon
             (scheduleStep d place idx t la lo latch).2).2)
      else ([], 0) := rfl

lemma scheduleGo_truncation (d : DistFn) (c : ℤ) :
    ∀ (ordered : List Place) (idx : ℕ) (t : ℤ) (la lo : ℚ) (latch : Option ℕ),
      ((scheduleGo d (some c) ordered idx t la lo latch).1 =
        (scheduleGo d none ordered idx t la lo latch).1.take
          (scheduleGo d (some c) ordered idx t la lo latch).1.length) ∧
      (∀ s ∈ (scheduleGo d (some c) ordered idx t la lo latch).1, s.leave ≤ c) ∧
      ((scheduleGo d (some c) ordered idx t la lo latch).1.length <
          (scheduleGo d none ordered idx t la lo latch).1.length →
        c < ((scheduleGo d none ordered idx t la lo latch).1.getD
          (scheduleGo d (some c) ordered idx t la lo latch).1.length default).leave) := by
  intro ordered
  induction ordered with
  | nil =>
    intro idx t la lo latch
    simp [scheduleGo]
  | cons place rest ih =>
    intro idx t la lo latch
    obtain ⟨ih1, ih2, ih3⟩ := ih (idx + 1) (scheduleStep d place idx t la lo latch).1.leave
      place.lat place.lon (scheduleStep d place idx t la lo latch).2
    rw [scheduleGo_cons_some, scheduleGo_cons_none]
    by_cases hle : (scheduleStep d place idx t la lo latch).1.leave ≤ c
    · rw [if_pos (decide_eq_true hle)]
      dsimp only
      refine ⟨?_, ?_, ?_⟩
      · rw [List.length_cons, List.take_succ_cons, ← ih1]
      · intro s hs
        rcases List.mem_cons.mp hs with rfl | hs
        · exact hle
        · exact ih2 s hs
      · intro hlen
        simp only [List.length_cons, List.getD_cons_succ]
        rw [List.length_cons, List.length_cons] at hlen
        exact ih3 (by omega)
    · rw [if_neg (by simpa using hle)]
      dsimp only
      refine ⟨rfl, ?_, ?_⟩
      · intro s hs
        simp at hs
      · intro _
        simp only [List.length_nil, List.getD_cons_zero]
        omega

/-- C5: with a day-end cutoff, no returned stop departs after the cutoff, and
as soon as one ordered place's computed departure would exceed it, that place
and all later ones are dropped: the returned itinerary is a prefix of the
uncut schedule over the same ordered places, and the first excluded stop of
the uncut schedule indeed departs after the cutoff. -/
theorem truncation_prefix (d : DistFn) (city : String) (places : List Place)
    (tags : List String) (startLocation : Option (ℚ × ℚ)) (c : ℤ) :
    ((buildRoute d city places tags startLocation (some c)).stops =
      (buildRoute d city places tags startLocation none).stops.take
        (buildRoute d city places tags startLocation (some c)).stops.length) ∧
    (∀ s ∈ (buildRoute d city places tags startLocation (some c)).stops, s.leave ≤ c) ∧
    ((buildRoute d city places tags startLocation (some c)).stops.length <
        (buildRoute d city places tags startLocation none).stops.length →
      c < ((buildRoute d city places tags startLocation none).stops.getD
        (buildRoute d city places tags startLocation (some c)).stops.length default).leave) :=
  scheduleGo_truncation d c (routeOrdered d city places tags startLocation) 0
    DEFAULT_START_MIN (startLocation.getD (cityCenter city)).1
    (startLocation.getD (cityCenter city)).2 none

unseal Rat.add Rat.mul Rat.inv Rat.sub in
theorem truncation_prefix_witness :
    ((buildRoute taxicab "Ростов-на-Дону"
        [⟨"a", 0, 1, [], 0, 0, none⟩, ⟨"b", 0, 2, [], 0, 0, none⟩]
        [] (some (0, 0)) (some 700)).stops =
      (buildRoute taxicab "Ростов-на-Дону"
        [⟨"a", 0, 1, [], 0, 0, none⟩, ⟨"b", 0, 2, [], 0, 0, none⟩]
        [] (some (0, 0)) none).stops.take
        (buildRoute taxicab "Ростов-на-Дону"
          [⟨"a", 0, 1, [], 0, 0, none⟩, ⟨"b", 0, 2, [], 0, 0, none⟩]
          [] (some (0, 0)) (some 700)).stops.length) ∧
    (buildRoute taxicab "Ростов-на-Дону"
        [⟨"a", 0, 1, [], 0, 0, none⟩, ⟨"b", 0, 2, [], 0, 0, none⟩]
        [] (some (0, 0)) (some 700)).stops.length <
      (buildRoute taxicab "Ростов-на-Дону"
        [⟨"a", 0, 1, [], 0, 0, none⟩, ⟨"b", 0, 2, [], 0, 0, none⟩]
        [] (some (0, 0)) none).stops.length ∧
    (700 : ℤ) < ((buildRoute taxicab "Ростов-на-Дону"
        [⟨"a", 0, 1, [], 0, 0, none⟩, ⟨"b", 0, 2, [], 0, 0, none⟩]
        [] (some (0, 0)) none).stops.getD
        (buildRoute taxicab "Ростов-на-Дону"
          [⟨"a", 0, 1, [], 0, 0, none⟩, ⟨"b", 0, 2, [], 0, 0, none⟩]
          [] (some (0, 0)) (some 700)).stops.length default).leave := by
  obtain ⟨h1, _, h3⟩ := truncation_prefix taxicab "Ростов-на-Дону"
    [⟨"a", 0, 1, [], 0, 0, none⟩, ⟨"b", 0, 2, [], 0, 0, none⟩]
    [] (some (0, 0)) 700
  exact ⟨h1, by decide, h3 (by decide)⟩

/- Supporting lemmas: the lunch-delay rule of the schedule loop. -/

lemma scheduleStep_travel_eq (d : DistFn) (place : Place) (idx : ℕ) (t : ℤ)
    (la lo : ℚ) (latch : Option ℕ) :
    (scheduleStep d place idx t la lo latch).1.travel_min_from_prev =
      travelMinutes (d la lo place.lat place.lon) := rfl

lemma scheduleStep_latch_eq (d : DistFn) (place : Place) (idx : ℕ) (t : ℤ)
    (la lo : ℚ) (latch : Option ℕ) :
    (scheduleStep d place idx t la lo latch).2 =
      if latch = none ∧ LUNCH_AFTER_MIN ≤
          alignToOpening (t + travelMinutes (d la lo place.lat place.lon))
            (parseHours place) - DEFAULT_START_MIN
        then some idx else latch := rfl

lemma scheduleStep_arrive_eq (d : DistFn) (place : Place) (idx : ℕ) (t : ℤ)
    (la lo : ℚ) (latch : Option ℕ) :
    (scheduleStep d place idx t la lo latch).1.arrive =
      alignToOpening (t + travelMinutes (d la lo place.lat place.lon)) (parseHours place) +
        (if latch = none ∧
            LUNCH_AFTER_MIN ≤
              alignToOpening (t + travelMinutes (d la lo place.lat place.lon))
                (parseHours place) - DEFAULT_START_MIN ∧
            hasFoodTag place = false
          then 10 else 0) := by
  simp only [scheduleStep]
  split_ifs <;> omega

lemma baseArrive_step_zero (d : DistFn) (place : Place) (idx : ℕ) (t : ℤ)
    (la lo : ℚ) (latch : Option ℕ) (tail : List Stop) (rest : List Place) :
    baseArrive ((scheduleStep d place idx t la lo latch).1 :: tail) (place :: rest) t 0 =
      alignToOpening (t + travelMinutes (d la lo place.lat place.lon)) (parseHours place) := by
  simp [baseArrive, scheduleStep_travel_eq]

lemma baseArrive_cons (s : Stop) (tail : List Stop) (place : Place) (rest : List Place)
    (t : ℤ) (i : ℕ) :
    baseArrive (s :: tail) (place :: rest) t (i + 1) = baseArrive tail rest s.leave i := by
  unfold baseArrive
  cases i with
  | zero => simp
  | succ n => simp

lemma scheduleGo_lunch (d : DistFn) (hardStop : Option ℤ) :
    ∀ (ordered : List Place) (idx : ℕ) (t : ℤ) (la lo : ℚ) (latch : Option ℕ) (i : ℕ),
      i < (scheduleGo d hardStop ordered idx t la lo latch).1.length →
      ((scheduleGo d hardStop ordered idx t la lo latch).1.getD i default).arrive =
        baseArrive (scheduleGo d hardStop ordered idx t la lo latch).1 ordered t i +
          (if latch = none ∧
              (∀ j, j < i →
                baseArrive (scheduleGo d hardStop ordered idx t la lo latch).1 ordered t j -
                  DEFAULT_START_MIN < LUNCH_AFTER_MIN) ∧
              LUNCH_AFTER_MIN ≤
                baseArrive (scheduleGo d hardStop ordered idx t la lo latch).1 ordered t i -
                  DEFAULT_START_MIN ∧
              hasFoodTag (ordered.getD i default) = false
            then 10 else 0) := by
  intro ordered
  induction ordered with
  | nil =>
    intro idx t la lo latch i hi
    simp [scheduleGo] at hi
  | cons place rest ih =>
    intro idx t la lo latch i hi
    have hcases : scheduleGo d hardStop (place :: rest) idx t la lo latch = ([], 0) ∨
        scheduleGo d hardStop (place :: rest) idx t la lo latch =
          ((scheduleStep d place idx t la lo latch).1 ::
            (scheduleGo d hardStop rest (idx + 1)
              (scheduleStep d place idx t la lo latch).1.leave place.lat place.lon
              (scheduleStep d place idx t la lo latch).2).1,
           (scheduleStep d place idx t la lo latch).1.travel_min_from_prev +
             durationForPlace place +
             (scheduleGo d hardStop rest (idx + 1)
               (scheduleStep d place idx t la lo latch).1.leave place.lat place.lon
               (scheduleStep d place idx t la lo latch).2).2) := by
      simp only [scheduleGo]
      split
      · right; rfl
      · left; rfl
    rcases hcases with hnil | hcons
    · rw [hnil] at hi
      simp at hi
    · rw [hcons] at hi ⊢
      dsimp only at hi ⊢
      cases i with
      | zero =>
        rw [List.getD_cons_zero, baseArrive_step_zero, scheduleStep_arrive_eq]
        congr 1
        refine if_congr ?_ rfl rfl
        constructor
        · rintro ⟨h1, h2, h3⟩
          exact ⟨h1, fun j hj => absurd hj (Nat.not_lt_zero j), h2, h3⟩
        · rintro ⟨h1, _, h2, h3⟩
          exact ⟨h1, h2, h3⟩
      | succ n =>
        rw [List.getD_cons_succ, List.getD_cons_succ, baseArrive_cons]
        rw [List.length_cons] at hi
        have hIH := ih (idx + 1) (scheduleStep d place idx t la lo latch).1.leave
          place.lat place.lon (scheduleStep d place idx t la lo latch).2 n (by omega)
        rw [hIH]
        congr 1
        refine if_congr ?_ rfl rfl
        constructor
        · rintro ⟨hl2, hall, hcr, hfood⟩
          have hl : latch = none ∧
              ¬ (LUNCH_AFTER_MIN ≤
                alignToOpening (t + travelMinutes (d la lo place.lat place.lon))
                  (parseHours place) - DEFAULT_START_MIN) := by
            rw [scheduleStep_latch_eq] at hl2
            by_cases hcrA : LUNCH_AFTER_MIN ≤
                alignToOpening (t + travelMinutes (d la lo place.lat place.lon))
                  (parseHours place) - DEFAULT_START_MIN
            · by_cases hlz : latch = none
              · rw [if_pos ⟨hlz, hcrA⟩] at hl2
                exact absurd hl2 (by simp)
              · rw [if_neg (by tauto)] at hl2
                exact absurd hl2 hlz
            · constructor
              · rwa [if_neg (by tauto)] at hl2
              · exact hcrA
          refine ⟨hl.1, ?_, ?_, hfood⟩
          · intro j hj
            cases j with
            | zero =>
              rw [baseArrive_step_zero]
              omega
            | succ k =>
              rw [baseArrive_cons]
              exact hall k (by omega)
          · exact hcr
        · rintro ⟨hl, hall, hcr, hfood⟩
          have h0 := hall 0 (by omega)
          rw [baseArrive_step_zero] at h0
          have hl2 : (scheduleStep d place idx t la lo latch).2 = none := by
            rw [scheduleStep_latch_eq, if_neg (by omega)]
            exact hl
          refine ⟨hl2, ?_, ?_, hfood⟩
          · intro j hj
            have := hall (j + 1) (by omega)
            rwa [baseArrive_cons] at this
          · exact hcr

/-- C3 (amended): in every schedule built by `build_route`, the 10-minute
lunch delay is considered only at the first stop whose aligned, pre-delay
arrival (`baseArrive`) reaches 3.5 elapsed hours since 10:00; it is added to
that stop's arrival iff that stop is not food/coffee-tagged.  If that first
threshold-crossing stop is food-tagged, no delay is applied to any stop (the
one-shot latch is consumed), and in particular the delay is applied at most
once per itinerary. -/
theorem lunch_delay_amended (d : DistFn) (city : String) (places : List Place)
    (tags : List String) (startLocation : Option (ℚ × ℚ)) (dayEnd : Option ℤ) (i : ℕ)
    (hi : i < (buildRoute d city places tags startLocation dayEnd).stops.length) :
    ((buildRoute d city places tags startLocation dayEnd).stops.getD i default).arrive =
      baseArrive (buildRoute d city places tags startLocation dayEnd).stops
          (routeOrdered d city places tags startLocation) DEFAULT_START_MIN i +
        (if (∀ j, j < i →
              baseArrive (buildRoute d city places tags startLocation dayEnd).stops
                  (routeOrdered d city places tags startLocation) DEFAULT_START_MIN j -
                DEFAULT_START_MIN < LUNCH_AFTER_MIN) ∧
            LUNCH_AFTER_MIN ≤
              baseArrive (buildRoute d city places tags startLocation dayEnd).stops
                  (routeOrdered d city places tags startLocation) DEFAULT_START_MIN i -
                DEFAULT_START_MIN ∧
            hasFoodTag ((routeOrdered d city places tags startLocation).getD i default)
              = false
          then 10 else 0) := by
  have hb : (buildRoute d city places tags startLocation dayEnd).stops =
      (scheduleGo d dayEnd (routeOrdered d city places tags startLocation) 0
        DEFAULT_START_MIN (startLocation.getD (cityCenter city)).1
        (startLocation.getD (cityCenter city)).2 none).1 := rfl
  rw [hb] at hi ⊢
  have h := scheduleGo_lunch d dayEnd (routeOrdered d city places tags startLocation) 0
    DEFAULT_START_MIN (startLocation.getD (cityCenter city)).1
    (startLocation.getD (cityCenter city)).2 none i hi
  simpa using h

unseal Rat.add Rat.mul Rat.inv Rat.sub in
theorem lunch_delay_amended_witness :
    ((buildRoute taxicab "Ростов-на-Дону" [⟨"x", 0, 100, [], 0, 0, none⟩]
        [] (some (0, 0)) none).stops.getD 0 default).arrive =
      baseArrive (buildRoute taxicab "Ростов-на-Дону" [⟨"x", 0, 100, [], 0, 0, none⟩]
          [] (some (0, 0)) none).stops
          (routeOrdered taxicab "Ростов-на-Дону" [⟨"x", 0, 100, [], 0, 0, none⟩]
            [] (some (0, 0))) DEFAULT_START_MIN 0 + 10 := by
  have h := lunch_delay_amended taxicab "Ростов-на-Дону" [⟨"x", 0, 100, [], 0, 0, none⟩]
    [] (some (0, 0)) none 0 (by decide)
  rw [h]
  split
  next hcond => rfl
  next hcond =>
    exact absurd ⟨fun j hj => absurd hj (Nat.not_lt_zero j), by decide, by decide⟩ hcond

unseal Rat.add Rat.mul Rat.inv Rat.sub in
/-- C3 (counterexample): a concrete request on which the first stop crossing
the 3.5-hour threshold is food-tagged (arrival 13:30, minute 810) and the
next stop is not food-tagged and also past the threshold (arrival minute
867).  The claim says the 10-minute delay is added to the first
threshold-crossing non-food stop, i.e. the second stop would arrive at minute
877 (as the claim-faithful reference `buildRouteClaimLunch` does); the code
consumes the one-shot latch at the food-tagged first stop and adds no delay
anywhere, so the second stop arrives at minute 867. -/
theorem lunch_delay_counterexample :
    (buildRoute taxicab "Ростов-на-Дону"
        [⟨"f", 0, 70, ["food"], 0, 0, none⟩, ⟨"g", 0, 71, ["x"], 0, 0, none⟩]
        [] (some (0, 0)) (some 1200)).stops ≠
      buildRouteClaimLunch taxicab "Ростов-на-Дону"
        [⟨"f", 0, 70, ["food"], 0, 0, none⟩, ⟨"g", 0, 71, ["x"], 0, 0, none⟩]
        [] (some (0, 0)) (some 1200) ∧
    hasFoodTag ⟨"f", 0, 70, ["food"], 0, 0, none⟩ = true ∧
    hasFoodTag ⟨"g", 0, 71, ["x"], 0, 0, none⟩ = false ∧
    ((buildRoute taxicab "Ростов-на-Дону"
        [⟨"f", 0, 70, ["food"], 0, 0, none⟩, ⟨"g", 0, 71, ["x"], 0, 0, none⟩]
        [] (some (0, 0)) (some 1200)).stops.getD 0 default).arrive = 810 ∧
    ((buildRoute taxicab "Ростов-на-Дону"
        [⟨"f", 0, 70, ["food"], 0, 0, none⟩, ⟨"g", 0, 71, ["x"], 0, 0, none⟩]
        [] (some (0, 0)) (some 1200)).stops.getD 1 default).arrive = 867 ∧
    ((buildRouteClaimLunch taxicab "Ростов-на-Дону"
        [⟨"f", 0, 70, ["food"], 0, 0, none⟩, ⟨"g", 0, 71, ["x"], 0, 0, none⟩]
        [] (some (0, 0)) (some 1200)).getD 1 default).arrive = 877 := by
  decide

/- Supporting lemmas: the calendar exporter. -/

lemma icsEventsTemplate_render (tzid now : String) (description : Option String) :
    ∀ (idx : ℕ) (stops : List IcsStop),
      icsEventsLines tzid now description idx stops =
        (icsEventsTemplate tzid description idx stops).map (renderIcsLine now) := by
  intro idx stops
  induction stops generalizing idx with
  | nil => simp [icsEventsLines, icsEventsTemplate]
  | cons s rest ih =>
    simp [icsEventsLines, icsEventsTemplate, icsEventLines, icsEventTemplate,
      renderIcsLine, ih]

/-- C1 (amended): the exporter's payload is a deterministic function of the
itinerary and the generation clock, and it depends on the clock only through
the `DTSTAMP` slot of each event block: the payload is obtained by rendering
a clock-independent line template in which every line except the `DTSTAMP`
slots is fixed by the input alone.  In particular two calls with the same
input and the same clock reading are byte-identical, and two calls with
different clock readings can differ only in `DTSTAMP` lines. -/
theorem make_ics_clock_dependence (stops : List IcsStop) (title : String)
    (description : Option String) (tzid now : String) :
    makeIcs stops title description tzid now =
      String.intercalate "\n"
        ((icsTemplate stops title description tzid).map (renderIcsLine now)) ++ "\n" := by
  unfold makeIcs makeIcsLines icsTemplate
  rw [List.map_append, List.map_append, List.map_map, icsEventsTemplate_render]
  simp [renderIcsLine, Function.comp_def, ICS_FOOTER]

set_option maxRecDepth 4000 in
/-- C1 (counterexample): two calls of `make_ics` on one and the same
itinerary, made at two different clock readings, yield different payloads —
the `DTSTAMP` field embeds `datetime.now`, so the output is not byte-stable
for identical input. -/
theorem make_ics_not_deterministic :
    makeIcs [⟨"Музей", "20250601T100800", "20250601T112300", ["museum"], none⟩]
        "Маршрут" none "Europe/Moscow" "20250101T000000Z" ≠
      makeIcs [⟨"Музей", "20250601T100800", "20250601T112300", ["museum"], none⟩]
        "Маршрут" none "Europe/Moscow" "20250102T000000Z" := by
  decide
